import Mathlib

/-!
# WebDAVT: `lib/files.go`

A shallow embedding of the WebDAV file-system decorator of `lib/files.go`
(build tag `windows`) and the properties of its open/close timestamp protocol.

* Go values: `error` is `Option Error` (`none` is `nil`), a Go result pair is a
  Lean pair, `int` is `Int`, `uint32` is `Nat`, a `[]os.FileInfo` is a `List`.
* Effects: every call that leaves `files.go` (the Windows system calls and the
  embedded `webdav.Dir` / `webdav.File`) is a field of `Host`, a record of
  functions over an arbitrary host state.  A program is a function from a
  `World` (host state plus the chronological trace of calls made so far) to an
  `Outcome` (a returned value or a Go panic) and the world afterwards.
* Library code that `files.go` calls and that is pure (`path`, `path/filepath`
  for Windows as of Go 1.22, the path resolution of `webdav.Dir` in
  `golang.org/x/net/webdav`) is transcribed from the Go libraries;
  `mime.TypeByExtension` is a parameter.
* Not modelled: the `context.Context` arguments, which `files.go` only passes
  on; the `nil` security attributes and the zero template handle of
  `CreateFile`, which are constants.
* The source calls `syscall.GetFileTime`, which Go's package `syscall` does not
  export (it has `SetFileTime` only), and imports `time` without using it, so
  `files.go` does not build as it stands. The embedding follows the source
  text: `GetFileTime` is a host call with the signature the source uses, that
  of the Win32 function.
-/

namespace WebDAVT

set_option linter.dupNamespace false

/-! ## Go values -/

/-- Go `error` values; `nil` is `none : Option Error`. -/
abbrev Error := String

/-- The `syscall.Handle` type. -/
abbrev Handle := Nat

/-- The `syscall.Filetime` structure: two `uint32` halves of a 64-bit tick count. -/
structure Filetime where
  LowDateTime : Nat
  HighDateTime : Nat
deriving DecidableEq, Repr

/-- The fields an `os.FileInfo` of the underlying file system reports. `ContentType` is the
answer of the value's own `ContentType` method when it implements `webdav.ContentTyper`. -/
structure NativeInfo where
  Name : String
  Size : Int
  Mode : Nat
  ModTime : Int
  IsDir : Bool
  ContentType : Option (String × Option Error)
deriving DecidableEq, Repr

/-- An `os.FileInfo` interface value: `nil`, a value of the underlying file system, or the
`noSniffFileInfo` struct of `files.go`, which embeds an `os.FileInfo`. -/
inductive FileInfo where
  | nil
  | native (i : NativeInfo)
  | noSniffFileInfo (FileInfo : FileInfo)
deriving DecidableEq, Repr

/-- The `Dir` struct: the embedded `webdav.Dir` (a root directory string) and the switch. -/
structure Dir where
  Dir : String
  noSniff : Bool
deriving DecidableEq, Repr

/-- The `noSniffFile` struct. The embedded `webdav.File` is a reference into the host. -/
structure noSniffFile where
  File : Nat
  fullPath : String
  hasOrigTime : Bool
  origCTime : Filetime
  origATime : Filetime
  origMTime : Filetime
  flag : Int
deriving DecidableEq, Repr

/-! ## Constants of `os` and `syscall` on Windows -/

def O_RDONLY : Int := 0x00000
def O_WRONLY : Int := 0x00001
def O_RDWR : Int := 0x00002
def O_CREATE : Int := 0x00040
def O_EXCL : Int := 0x00080
def O_TRUNC : Int := 0x00200
def O_APPEND : Int := 0x00400

def GENERIC_READ : Nat := 0x80000000
def GENERIC_WRITE : Nat := 0x40000000
def FILE_SHARE_READ : Nat := 0x00000001
def FILE_SHARE_WRITE : Nat := 0x00000002
def FILE_SHARE_DELETE : Nat := 0x00000004
def OPEN_EXISTING : Nat := 3
def FILE_ATTRIBUTE_NORMAL : Nat := 0x00000080

/-- The sharing mode `FILE_SHARE_READ|FILE_SHARE_WRITE|FILE_SHARE_DELETE` that both timestamp
functions pass to `CreateFile`. -/
def shareAll : Nat := FILE_SHARE_READ ||| FILE_SHARE_WRITE ||| FILE_SHARE_DELETE

/-- The mask `os.O_WRONLY|os.O_RDWR|os.O_CREATE|os.O_TRUNC|os.O_APPEND` of `Close`. -/
def writeMask : Int :=
  Int.lor (Int.lor (Int.lor (Int.lor O_WRONLY O_RDWR) O_CREATE) O_TRUNC) O_APPEND

/-! ## Go library: package `path` and package `path/filepath` for Windows

Strings are handled as lists of characters. The Go code works on bytes; every character it
tests for is ASCII, and an ASCII byte never occurs inside a multi-byte UTF-8 sequence. -/

/-- The lazily built output buffer of `Clean` (`lazybuf` in both packages; package `path` has
no volume, there `volLen = 0`). -/
structure lazybuf where
  path : List Char
  buf : Option (List Char)
  w : Nat
  volAndPath : List Char
  volLen : Nat
deriving DecidableEq, Repr

/-- Method `lazybuf.index`. -/
def lazybuf.index (b : lazybuf) (i : Nat) : Char :=
  match b.buf with
  | some bf => bf.getD i (Char.ofNat 0)
  | none => b.path.getD i (Char.ofNat 0)

/-- Method `lazybuf.append`. -/
def lazybuf.append (b : lazybuf) (c : Char) : lazybuf :=
  match b.buf with
  | none =>
    if b.w < b.path.length && b.path.getD b.w (Char.ofNat 0) == c then
      { b with w := b.w + 1 }
    else
      let bf := b.path.take b.w ++ List.replicate (b.path.length - b.w) (Char.ofNat 0)
      { b with buf := some (bf.set b.w c), w := b.w + 1 }
  | some bf => { b with buf := some (bf.set b.w c), w := b.w + 1 }

/-- Method `lazybuf.prepend` (Windows only). -/
def lazybuf.prepend (b : lazybuf) (pre : List Char) : lazybuf :=
  { b with buf := some (pre ++ b.buf.getD []), w := b.w + pre.length }

/-- Method `lazybuf.string`. -/
def lazybuf.string (b : lazybuf) : List Char :=
  match b.buf with
  | none => b.volAndPath.take (b.volLen + b.w)
  | some bf => b.volAndPath.take b.volLen ++ bf.take b.w

/-- The inner loop of the `..` case of `Clean`: `w` has been decremented once already. -/
def backtrack (isSep : Char → Bool) (out : lazybuf) (dotdot : Nat) : Nat → Nat
  | 0 => 0
  | w + 1 => if dotdot < w + 1 && !isSep (out.index (w + 1)) then backtrack isSep out dotdot w
             else w + 1

/-- The loop `for ; r < n && !IsPathSeparator(path[r]); r++ { out.append(path[r]) }`. -/
def copyElem (isSep : Char → Bool) (path : List Char) : Nat → lazybuf → Nat → lazybuf × Nat
  | 0, out, r => (out, r)
  | k + 1, out, r =>
    if r < path.length && !isSep (path.getD r (Char.ofNat 0)) then
      copyElem isSep path k (out.append (path.getD r (Char.ofNat 0))) (r + 1)
    else (out, r)

/-- The main loop `for r < n { switch ... }` of `Clean`, shared by both packages: `isSep` is
the separator test and `sep` the separator written. Every round advances `r`, so
`path.length` rounds are enough. -/
def cleanLoop (isSep : Char → Bool) (sep : Char) (rooted : Bool) (path : List Char) :
    Nat → lazybuf → Nat → Nat → lazybuf
  | 0, out, _, _ => out
  | fuel + 1, out, r, dotdot =>
    let n := path.length
    let ch (i : Nat) : Char := path.getD i (Char.ofNat 0)
    if r < n then
      if isSep (ch r) then
        cleanLoop isSep sep rooted path fuel out (r + 1) dotdot
      else if ch r == '.' && (r + 1 == n || isSep (ch (r + 1))) then
        cleanLoop isSep sep rooted path fuel out (r + 1) dotdot
      else if ch r == '.' && ch (r + 1) == '.' && (r + 2 == n || isSep (ch (r + 2))) then
        if dotdot < out.w then
          cleanLoop isSep sep rooted path fuel
            { out with w := backtrack isSep out dotdot (out.w - 1) } (r + 2) dotdot
        else if !rooted then
          let out1 := if 0 < out.w then out.append sep else out
          let out2 := (out1.append '.').append '.'
          cleanLoop isSep sep rooted path fuel out2 (r + 2) out2.w
        else
          cleanLoop isSep sep rooted path fuel out (r + 2) dotdot
      else
        let out1 := if (rooted && out.w != 1) || (!rooted && out.w != 0) then out.append sep
                    else out
        let (out2, r2) := copyElem isSep path n out1 r
        cleanLoop isSep sep rooted path fuel out2 r2 dotdot
    else out

namespace path

/-- Go `path.Ext`: the suffix beginning at the final dot in the final slash-separated element,
scanned from the end; `acc` is the suffix passed over so far. -/
def extScan : List Char → List Char → List Char
  | [], _ => []
  | c :: rest, acc =>
    if c == '/' then [] else if c == '.' then '.' :: acc else extScan rest (c :: acc)

/-- Go `path.Ext`. -/
def Ext (p : String) : String := String.mk (extScan p.data.reverse [])

/-- Go `path.Clean`. -/
def Clean (p : String) : String :=
  let s := p.data
  if s.isEmpty then "." else
  let rooted := s.head? == some '/'
  let out0 : lazybuf := { path := s, buf := none, w := 0, volAndPath := s, volLen := 0 }
  let out1 := if rooted then out0.append '/' else out0
  let r := if rooted then 1 else 0
  let out := cleanLoop (fun c => c == '/') '/' rooted s (s.length + 1) out1 r r
  if out.w == 0 then "." else String.mk out.string

end path

namespace filepath

/-- The Windows `filepath.Separator`. -/
def Separator : Char := '\\'

/-- Go `os.IsPathSeparator` on Windows. -/
def IsPathSeparator (c : Char) : Bool := c == '\\' || c == '/'

/-- Go `toUpper` of `path_windows.go` (ASCII only). -/
def toUpper (c : Char) : Char :=
  if 'a' ≤ c ∧ c ≤ 'z' then Char.ofNat (c.toNat - 32) else c

/-- Go `pathHasPrefixFold`, on the remaining characters of `s` and of the pattern. -/
def pathHasPrefixFold : List Char → List Char → Bool
  | [], [] => true
  | c :: _, [] => IsPathSeparator c
  | [], _ :: _ => false
  | c :: s, p :: ps =>
    if IsPathSeparator p then
      if !IsPathSeparator c then false else pathHasPrefixFold s ps
    else if toUpper p != toUpper c then false
    else pathHasPrefixFold s ps

/-- Go `uncLen`: scans from index `i` having seen `count` separators; `n` is the length of the
whole path. -/
def uncScan (n : Nat) : List Char → Nat → Nat → Nat
  | [], _, _ => n
  | c :: rest, i, count =>
    if IsPathSeparator c then
      if count + 1 == 2 then i else uncScan n rest (i + 1) (count + 1)
    else uncScan n rest (i + 1) count

/-- Go `uncLen`. -/
def uncLen (p : List Char) (preLen : Nat) : Nat :=
  uncScan p.length (p.drop preLen) preLen 0

/-- Go `cutPath`: `(before, after, ok)` around the first separator. -/
def cutPath : List Char → List Char × List Char × Bool
  | [] => ([], [], false)
  | c :: rest =>
    if IsPathSeparator c then ([], rest, true)
    else
      let (b, a, ok) := cutPath rest
      (c :: b, a, ok)

/-- Go `volumeNameLen` on Windows. -/
def volumeNameLen (p : List Char) : Nat :=
  if 2 ≤ p.length && p.getD 1 ' ' == ':' then 2
  else if p.length == 0 || !IsPathSeparator (p.getD 0 ' ') then 0
  else if pathHasPrefixFold p "\\\\.\\UNC".data then uncLen p 8
  else if pathHasPrefixFold p "\\\\.".data || pathHasPrefixFold p "\\\\?".data
      || pathHasPrefixFold p "\\??".data then
    if p.length == 3 then 3
    else
      let (_, rest, ok) := cutPath (p.drop 4)
      if !ok then p.length else p.length - rest.length - 1
  else if 2 ≤ p.length && IsPathSeparator (p.getD 1 ' ') then uncLen p 2
  else 0

/-- Go `filepath.FromSlash` on Windows. -/
def FromSlash (p : List Char) : List Char :=
  p.map (fun c => if c == '/' then Separator else c)

/-- The loop of Go `postClean` looking for a colon before the first separator; it ranges
over the whole buffer `out.buf`, bytes beyond `out.w` included. -/
def colonInFirstElem : List Char → Bool
  | [] => false
  | c :: rest => if IsPathSeparator c then false else if c == ':' then true
                 else colonInFirstElem rest

/-- Go `postClean` on Windows: keeps `Clean` from turning a relative path into an absolute or
rooted one. -/
def postClean (out : lazybuf) : lazybuf :=
  match out.buf with
  | none => out
  | some bf =>
    if out.volLen != 0 then out
    else if colonInFirstElem bf then out.prepend ['.', Separator]
    else if 3 ≤ bf.length && IsPathSeparator (bf.getD 0 ' ') && bf.getD 1 ' ' == '?'
        && bf.getD 2 ' ' == '?' then
      out.prepend [Separator, '.']
    else out

/-- Go `filepath.Clean` on Windows, on character lists. -/
def cleanChars (originalPath : List Char) : List Char :=
  let volLen := volumeNameLen originalPath
  let p := originalPath.drop volLen
  if p.isEmpty then
    if 1 < volLen && IsPathSeparator (originalPath.getD 0 ' ')
        && IsPathSeparator (originalPath.getD 1 ' ') then
      FromSlash originalPath
    else originalPath ++ ['.']
  else
    let rooted := IsPathSeparator (p.getD 0 ' ')
    let out0 : lazybuf :=
      { path := p, buf := none, w := 0, volAndPath := originalPath, volLen := volLen }
    let out1 := if rooted then out0.append Separator else out0
    let r := if rooted then 1 else 0
    let out2 := cleanLoop IsPathSeparator Separator rooted p (p.length + 1) out1 r r
    let out3 := if out2.w == 0 then out2.append '.' else out2
    FromSlash (postClean out3).string

/-- Go `filepath.Clean` on Windows. -/
def Clean (p : String) : String := String.mk (cleanChars p.data)

/-- The loop of the Windows `join`: `b` is the string builder, `lastChar` its last byte. -/
def joinLoop : List (List Char) → List Char → Char → List Char
  | [], b, _ => b
  | e :: rest, b, lastChar =>
    let (e1, b1, last1) :=
      if b.length == 0 then (e, b, lastChar)
      else if IsPathSeparator lastChar then
        let e1 := e.dropWhile IsPathSeparator
        let b1 :=
          if b.length == 1 && e1.take 2 == ['?', '?']
              && (e1.length == 2 || IsPathSeparator (e1.getD 2 ' ')) then
            b ++ ['.', '\\']
          else b
        (e1, b1, lastChar)
      else if lastChar == ':' then (e, b, lastChar)
      else (e, b ++ ['\\'], '\\')
    if 0 < e1.length then joinLoop rest (b1 ++ e1) (e1.getLastD ' ')
    else joinLoop rest b1 last1

/-- Go `filepath.Join` on Windows. -/
def Join (elem : List String) : String :=
  let b := joinLoop (elem.map String.data) [] (Char.ofNat 0)
  if b.length == 0 then "" else String.mk (cleanChars b)

end filepath

namespace webdav

/-- Function `slashClean` of `golang.org/x/net/webdav`. -/
def slashClean (name : String) : String :=
  if name == "" || name.data.head? != some '/' then path.Clean ("/" ++ name)
  else path.Clean name

/-- Method `webdav.Dir.resolve`: the path that the embedded `webdav.Dir` opens for `name`;
the empty string means the name is refused. -/
def resolve (d : String) (name : String) : String :=
  if name.data.contains filepath.Separator || name.data.contains (Char.ofNat 0) then ""
  else
    let dir := if d == "" then "." else d
    filepath.Join [dir, String.mk (filepath.FromSlash (slashClean name).data)]

end webdav

/-! ## Effects: the host, the trace and the outcome of a run -/

/-- One call recorded in the trace. `getFileTimes` and `restoreFileTimes` mark the entry into
the two functions of `files.go`; every other event is a call that leaves `files.go`, with its
arguments. -/
inductive Event where
  | getFileTimes (path : String)
  | restoreFileTimes (path : String) (c a m : Filetime)
  | CreateFile (name : String) (access mode createmode attrs : Nat)
  | GetFileTime (handle : Handle)
  | SetFileTime (handle : Handle) (c a m : Filetime)
  | CloseHandle (handle : Handle)
  | DirStat (dir name : String)
  | DirOpenFile (dir name : String) (flag : Int) (perm : Nat)
  | FileStat (file : Nat)
  | FileReaddir (file : Nat) (count : Int)
  | FileWrite (file : Nat) (p : List Nat)
  | FileClose (file : Nat)
deriving DecidableEq, Repr

/-- The collaborators of `files.go` over a host state `σ`: the Windows system calls of package
`syscall`, the methods of the embedded `webdav.Dir` (first argument: the root string) and the
methods of the embedded `webdav.File` (first argument: the file reference). A Go result pair
`(v, err)` is a Lean pair; `GetFileTime` receives the current contents of its three
out-parameters and returns their contents after the call. -/
structure Host (σ : Type) where
  CreateFile : String → Nat → Nat → Nat → Nat → σ → (Handle × Option Error) × σ
  GetFileTime : Handle → Filetime × Filetime × Filetime → σ →
    ((Filetime × Filetime × Filetime) × Option Error) × σ
  SetFileTime : Handle → Filetime → Filetime → Filetime → σ → Option Error × σ
  CloseHandle : Handle → σ → Option Error × σ
  DirStat : String → String → σ → (FileInfo × Option Error) × σ
  DirOpenFile : String → String → Int → Nat → σ → (Nat × Option Error) × σ
  FileStat : Nat → σ → (FileInfo × Option Error) × σ
  FileReaddir : Nat → Int → σ → (List FileInfo × Option Error) × σ
  FileWrite : Nat → List Nat → σ → (Int × Option Error) × σ
  FileClose : Nat → σ → Option Error × σ

/-- The host state and the calls made so far, oldest first. -/
structure World (σ : Type) where
  host : σ
  trace : List Event

/-- How a Go function ends: it returns a value, or it panics. -/
inductive Outcome (α : Type) where
  | ret (a : α)
  | panic (msg : String)
deriving DecidableEq, Repr

/-- A Go function body: from the world before to its outcome and the world after. -/
def Run (σ α : Type) : Type := World σ → Outcome α × World σ

/-- Return a value without any effect. -/
def Run.pure {σ α : Type} (a : α) : Run σ α := fun w => (Outcome.ret a, w)

/-- Sequencing; a panic ends the run. -/
def Run.bind {σ α β : Type} (m : Run σ α) (f : α → Run σ β) : Run σ β := fun w =>
  match m w with
  | (Outcome.ret a, w1) => f a w1
  | (Outcome.panic msg, w1) => (Outcome.panic msg, w1)

instance {σ : Type} : Monad (Run σ) where
  pure := Run.pure
  bind := Run.bind

/-- Record the entry into a function of `files.go`. -/
def mark {σ : Type} (e : Event) : Run σ Unit := fun w =>
  (Outcome.ret (), { w with trace := w.trace ++ [e] })

/-- Call a collaborator: record the call, then let the host answer. -/
def call {σ α : Type} (e : Event) (f : σ → α × σ) : Run σ α := fun w =>
  ((Outcome.ret (f w.host).1), { host := (f w.host).2, trace := w.trace ++ [e] })

/-- Does the string contain a NUL byte? -/
def hasNUL (s : String) : Bool := s.data.contains (Char.ofNat 0)

/-- Go `syscall.StringToUTF16Ptr`: panics when the string contains a NUL byte; the UTF-16
encoding itself is left to the host, which takes the string. -/
def StringToUTF16Ptr {σ : Type} (s : String) : Run σ String := fun w =>
  if hasNUL s then
    (Outcome.panic "syscall: string with NUL passed to StringToUTF16", w)
  else (Outcome.ret s, w)

/-! ## `files.go` -/

/-- Methods `Name`, `Size`, `Mode`, `ModTime`, `IsDir` of an `os.FileInfo` value: the struct
`noSniffFileInfo` has them by embedding; on the `nil` interface the call does not return. -/
def FileInfo.Name : FileInfo → Option String
  | .nil => none
  | .native i => some i.Name
  | .noSniffFileInfo w => w.Name

def FileInfo.Size : FileInfo → Option Int
  | .nil => none
  | .native i => some i.Size
  | .noSniffFileInfo w => w.Size

def FileInfo.Mode : FileInfo → Option Nat
  | .nil => none
  | .native i => some i.Mode
  | .noSniffFileInfo w => w.Mode

def FileInfo.ModTime : FileInfo → Option Int
  | .nil => none
  | .native i => some i.ModTime
  | .noSniffFileInfo w => w.ModTime

def FileInfo.IsDir : FileInfo → Option Bool
  | .nil => none
  | .native i => some i.IsDir
  | .noSniffFileInfo w => w.IsDir

/-- Method `noSniffFileInfo.ContentType` (lines 68-73); `w` is the embedded `w.FileInfo` and
`TypeByExtension` is `mime.TypeByExtension`. -/
def noSniffFileInfo.ContentType (TypeByExtension : String → String) (w : FileInfo) :
    Outcome (String × Option Error) :=
  match w.Name with
  | none => Outcome.panic "invalid memory address or nil pointer dereference"
  | some name =>
    let mimeType := TypeByExtension (path.Ext name)
    if mimeType != "" then Outcome.ret (mimeType, none)
    else Outcome.ret ("application/octet-stream", none)

/-- What a content-type query `fi.(webdav.ContentTyper)` followed by `ContentType` sees:
`none` when the value has no such method. -/
def FileInfo.ContentType (TypeByExtension : String → String) :
    FileInfo → Option (Outcome (String × Option Error))
  | .nil => none
  | .native i => i.ContentType.map Outcome.ret
  | .noSniffFileInfo w => some (noSniffFileInfo.ContentType TypeByExtension w)

/-- Method `Dir.Stat` (lines 22-33). -/
def Dir.Stat {σ : Type} (h : Host σ) (d : WebDAVT.Dir) (name : String) :
    Run σ (FileInfo × Option Error) := do
  if !d.noSniff then
    let r ← call (Event.DirStat d.Dir name) (h.DirStat d.Dir name)
    return r
  let (info, err) ← call (Event.DirStat d.Dir name) (h.DirStat d.Dir name)
  if err.isSome then
    return (FileInfo.nil, err)
  return (FileInfo.noSniffFileInfo info, none)

/-- Function `getFileTimes` (lines 135-152). The three pointers are passed as their current
contents and returned as their contents afterwards, next to the `bool` result. -/
def getFileTimes {σ : Type} (h : Host σ) (path : String) (c a m : Filetime) :
    Run σ (Bool × Filetime × Filetime × Filetime) := do
  mark (Event.getFileTimes path)
  let name ← StringToUTF16Ptr path
  let mode := FILE_SHARE_READ ||| FILE_SHARE_WRITE ||| FILE_SHARE_DELETE
  let (handle, err) ←
    call (Event.CreateFile name GENERIC_READ mode OPEN_EXISTING FILE_ATTRIBUTE_NORMAL)
      (h.CreateFile name GENERIC_READ mode OPEN_EXISTING FILE_ATTRIBUTE_NORMAL)
  if err.isSome then
    return (false, c, a, m)
  let ((c1, a1, m1), err1) ← call (Event.GetFileTime handle) (h.GetFileTime handle (c, a, m))
  let _ ← call (Event.CloseHandle handle) (h.CloseHandle handle)
  return (err1.isNone, c1, a1, m1)

/-- Function `restoreFileTimes` (lines 158-174). -/
def restoreFileTimes {σ : Type} (h : Host σ) (path : String) (c a m : Filetime) :
    Run σ Unit := do
  mark (Event.restoreFileTimes path c a m)
  let name ← StringToUTF16Ptr path
  let mode := FILE_SHARE_READ ||| FILE_SHARE_WRITE ||| FILE_SHARE_DELETE
  let (handle, err) ←
    call (Event.CreateFile name GENERIC_WRITE mode OPEN_EXISTING FILE_ATTRIBUTE_NORMAL)
      (h.CreateFile name GENERIC_WRITE mode OPEN_EXISTING FILE_ATTRIBUTE_NORMAL)
  if err.isSome then
    return ()
  let _ ← call (Event.SetFileTime handle c a m) (h.SetFileTime handle c a m)
  let _ ← call (Event.CloseHandle handle) (h.CloseHandle handle)
  return ()

/-- Method `Dir.OpenFile` (lines 35-58). -/
def Dir.OpenFile {σ : Type} (h : Host σ) (d : WebDAVT.Dir) (name : String) (flag : Int) (perm : Nat) :
    Run σ (Option noSniffFile × Option Error) := do
  let fullPath := filepath.Join [d.Dir, name]
  let zero : Filetime := { LowDateTime := 0, HighDateTime := 0 }
  let (hasOrigTime, origCTime, origATime, origMTime) ← getFileTimes h fullPath zero zero zero
  let (file, err) ←
    call (Event.DirOpenFile d.Dir name flag perm) (h.DirOpenFile d.Dir name flag perm)
  if err.isSome then
    return (none, err)
  let nf : noSniffFile :=
    { File := file, fullPath := fullPath, hasOrigTime := hasOrigTime, origCTime := origCTime,
      origATime := origATime, origMTime := origMTime, flag := flag }
  return (some nf, none)

/-- Method `noSniffFile.Stat` (lines 90-97). -/
def noSniffFile.Stat {σ : Type} (h : Host σ) (f : noSniffFile) :
    Run σ (FileInfo × Option Error) := do
  let (info, err) ← call (Event.FileStat f.File) (h.FileStat f.File)
  if err.isSome then
    return (FileInfo.nil, err)
  return (FileInfo.noSniffFileInfo info, none)

/-- Method `noSniffFile.Readdir` (lines 99-109); the loop overwrites every element of the
slice with its wrapping. -/
def noSniffFile.Readdir {σ : Type} (h : Host σ) (f : noSniffFile) (count : Int) :
    Run σ (List FileInfo × Option Error) := do
  let (fis, err) ← call (Event.FileReaddir f.File count) (h.FileReaddir f.File count)
  if err.isSome then
    return ([], err)
  return (fis.map FileInfo.noSniffFileInfo, none)

/-- Method `Write` of `noSniffFile`, which it has from the embedded `webdav.File`. -/
def noSniffFile.Write {σ : Type} (h : Host σ) (f : noSniffFile) (p : List Nat) :
    Run σ (Int × Option Error) :=
  call (Event.FileWrite f.File p) (h.FileWrite f.File p)

/-- The test `f.flag&(os.O_WRONLY|os.O_RDWR|os.O_CREATE|os.O_TRUNC|os.O_APPEND) != 0` of
`Close` (line 124). -/
def writeIntent (flag : Int) : Bool := Int.land flag writeMask != 0

/-- Method `noSniffFile.Close` (lines 115-129). -/
def noSniffFile.Close {σ : Type} (h : Host σ) (f : noSniffFile) : Run σ (Option Error) := do
  let err ← call (Event.FileClose f.File) (h.FileClose f.File)
  if !f.hasOrigTime then
    return err
  if writeIntent f.flag then
    restoreFileTimes h f.fullPath f.origCTime f.origATime f.origMTime
  return err

/-! ## Observations on runs -/

/-- The events added to the trace between the world `w` and the later world `w1`. -/
def eventsSince {σ : Type} (w w1 : World σ) : List Event :=
  w1.trace.drop w.trace.length

/-- The events a run added to the trace of the world `w` it started from. -/
def newEvents {σ α : Type} (w : World σ) (r : Outcome α × World σ) : List Event :=
  eventsSince w r.2

/-- Is the event an entry into `restoreFileTimes`? -/
def Event.isRestore : Event → Bool
  | .restoreFileTimes _ _ _ _ => true
  | _ => false

/-- Is the event a call of the underlying `webdav.Dir.OpenFile`? -/
def Event.isDirOpenFile : Event → Bool
  | .DirOpenFile _ _ _ _ => true
  | _ => false

/-- Is the event a call of the underlying `webdav.File.Close`? -/
def Event.isFileClose : Event → Bool
  | .FileClose _ => true
  | _ => false

/-- The entries into `restoreFileTimes` in a list of events, in order. -/
def restoreCalls (t : List Event) : List Event := t.filter Event.isRestore

/-- The calls of the underlying `webdav.Dir.OpenFile` in a list of events, in order. -/
def dirOpenCalls (t : List Event) : List Event := t.filter Event.isDirOpenFile

/-- What `Dir.OpenFile` establishes for the handles it builds: when timestamps were captured,
the path they were captured from went through `StringToUTF16Ptr`, so it has no NUL byte. -/
def noSniffFile.valid (f : noSniffFile) : Prop := f.hasOrigTime = true → hasNUL f.fullPath = false

instance (f : noSniffFile) : Decidable f.valid := by
  unfold noSniffFile.valid; exact inferInstance

/-- A sequence of `Write` calls on one handle; a panic cannot occur, the results are dropped. -/
def writeAll {σ : Type} (h : Host σ) (f : noSniffFile) : List (List Nat) → World σ → World σ
  | [], w => w
  | p :: ps, w => writeAll h f ps (noSniffFile.Write h f p w).2

/-- A sequence of `n` calls of `Close` on one handle, stopping at a panic; the result is the
world after the last call made. -/
def closeTimes {σ : Type} (h : Host σ) (f : noSniffFile) : Nat → World σ → World σ
  | 0, w => w
  | n + 1, w =>
    match noSniffFile.Close h f w with
    | (Outcome.ret _, w1) => closeTimes h f n w1
    | (Outcome.panic _, w1) => w1

/-- What the timestamp calls of a host must do for a restoration to take effect. `times s p`
is the (creation, last-access, last-modification) triple of the file at path `p` in host state
`s`, `pathOf s hd` the path an open system handle refers to, and `fileOf s file` the path of
the file behind an open `webdav.File`. -/
structure HostLaws {σ : Type} (h : Host σ)
    (times : σ → String → Option (Filetime × Filetime × Filetime))
    (pathOf : σ → Handle → Option String) (fileOf : σ → Nat → Option String) : Prop where
  /-- A write through an open file touches the timestamps of the file behind it only; this
  is what makes `fileOf` the file that was opened. -/
  write : ∀ file p s q, fileOf s file ≠ some q → times (h.FileWrite file p s).2 q = times s q
  /-- Opening an existing file for metadata access yields a handle on that path and changes
  no timestamp. -/
  createFile : ∀ name access mode attrs s hd s1,
    h.CreateFile name access mode OPEN_EXISTING attrs s = ((hd, none), s1) →
      pathOf s1 hd = some name ∧ ∀ q, times s1 q = times s q
  /-- A successful query returns the triple of the file behind the handle. -/
  getFileTime : ∀ hd cur s t s1 p,
    h.GetFileTime hd cur s = ((t, none), s1) → pathOf s hd = some p → times s p = some t
  /-- A successful update stores the triple it is given. -/
  setFileTime : ∀ hd c a m s s1 p,
    h.SetFileTime hd c a m s = (none, s1) → pathOf s hd = some p → times s1 p = some (c, a, m)
  /-- Releasing a handle changes no timestamp. -/
  closeHandle : ∀ hd s q, times (h.CloseHandle hd s).2 q = times s q

/-! ## A reference host: an in-memory file system

Files are kept by path string. Every file carries the access its security descriptor grants:
`allowWrite` for an open with `GENERIC_WRITE` (data and attributes), `allowAppend` for an
open with `FILE_APPEND_DATA` only, which is what `os.OpenFile` asks for under `O_APPEND`.
The embedded `webdav.Dir` resolves the name with `webdav.resolve` and opens the result. -/

structure MemFile where
  path : String
  ctime : Filetime
  atime : Filetime
  mtime : Filetime
  data : List Nat
  allowWrite : Bool
  allowAppend : Bool
deriving DecidableEq, Repr

structure MemState where
  files : List MemFile
  handles : List (Handle × String)
  opened : List (Nat × String × Int)
  next : Nat
  clock : Nat
deriving DecidableEq, Repr

/-- The file stored at a path. -/
def lookupFile (fs : List MemFile) (p : String) : Option MemFile :=
  fs.find? (fun f => f.path == p)

/-- Change the file stored at a path. -/
def updateFile (fs : List MemFile) (p : String) (g : MemFile → MemFile) : List MemFile :=
  fs.map (fun f => if f.path == p then g f else f)

/-- The timestamp triple of the file at a path. -/
def memTimes (s : MemState) (p : String) : Option (Filetime × Filetime × Filetime) :=
  (lookupFile s.files p).map (fun f => (f.ctime, f.atime, f.mtime))

/-- The path behind an open system handle. -/
def memPathOf (s : MemState) (hd : Handle) : Option String :=
  (s.handles.find? (fun e => e.1 == hd)).map (fun e => e.2)

/-- The path of the file behind an open `webdav.File`. -/
def memFileOf (s : MemState) (file : Nat) : Option String :=
  (s.opened.find? (fun e => e.1 == file)).map (fun e => e.2.1)

/-- The last element of a Windows path. -/
def baseName (p : String) : String :=
  String.mk (p.data.reverse.takeWhile (fun c => c != '\\')).reverse

/-- The `os.FileInfo` of a stored file. -/
def memInfo (f : MemFile) : FileInfo :=
  FileInfo.native
    { Name := baseName f.path, Size := f.data.length, Mode := if f.allowWrite then 438 else 292,
      ModTime := f.mtime.LowDateTime, IsDir := false, ContentType := none }

/-- System call `CreateFile` with `OPEN_EXISTING` (the only disposition `files.go` uses). -/
def memCreateFile (name : String) (access _mode _createmode _attrs : Nat) (s : MemState) :
    (Handle × Option Error) × MemState :=
  match lookupFile s.files name with
  | none => ((0, some "The system cannot find the file specified."), s)
  | some f =>
    if access == GENERIC_WRITE && !f.allowWrite then ((0, some "Access is denied."), s)
    else ((s.next, none), { s with handles := (s.next, name) :: s.handles, next := s.next + 1 })

def memGetFileTime (hd : Handle) (cur : Filetime × Filetime × Filetime) (s : MemState) :
    ((Filetime × Filetime × Filetime) × Option Error) × MemState :=
  match memPathOf s hd with
  | none => ((cur, some "The handle is invalid."), s)
  | some p =>
    match memTimes s p with
    | none => ((cur, some "The handle is invalid."), s)
    | some t => ((t, none), s)

def memSetFileTime (hd : Handle) (c a m : Filetime) (s : MemState) : Option Error × MemState :=
  match memPathOf s hd with
  | none => (some "The handle is invalid.", s)
  | some p =>
    match lookupFile s.files p with
    | none => (some "The handle is invalid.", s)
    | some _ =>
      let stamp : MemFile → MemFile := fun f => { f with ctime := c, atime := a, mtime := m }
      (none, { s with files := updateFile s.files p stamp })

def memCloseHandle (hd : Handle) (s : MemState) : Option Error × MemState :=
  match memPathOf s hd with
  | none => (some "The handle is invalid.", s)
  | some _ => (none, { s with handles := s.handles.filter (fun e => e.1 != hd) })

/-- Does `os.OpenFile` ask for write access to the data (`O_WRONLY`, `O_RDWR`, `O_CREATE`)? -/
def wantsWrite (flag : Int) : Bool :=
  Int.land flag (Int.lor (Int.lor O_WRONLY O_RDWR) O_CREATE) != 0

/-- The embedded `webdav.Dir.OpenFile`: resolve the name, then `os.OpenFile`. -/
def memDirOpenFile (dir name : String) (flag : Int) (_perm : Nat) (s : MemState) :
    (Nat × Option Error) × MemState :=
  let p := webdav.resolve dir name
  let now : Filetime := { LowDateTime := s.clock, HighDateTime := 0 }
  if p == "" then ((0, some "file does not exist"), s)
  else
    match lookupFile s.files p with
    | none =>
      if Int.land flag O_CREATE != 0 then
        let fresh : MemFile :=
          { path := p, ctime := now, atime := now, mtime := now, data := [],
            allowWrite := true, allowAppend := true }
        ((s.next, none),
          { s with files := s.files ++ [fresh], opened := (s.next, p, flag) :: s.opened,
                   next := s.next + 1, clock := s.clock + 1 })
      else ((0, some "The system cannot find the file specified."), s)
    | some f =>
      if Int.land flag O_CREATE != 0 && Int.land flag O_EXCL != 0 then
        ((0, some "The file exists."), s)
      else if Int.land flag O_APPEND != 0 && !f.allowAppend then
        ((0, some "Access is denied."), s)
      else if Int.land flag O_APPEND == 0 && wantsWrite flag && !f.allowWrite then
        ((0, some "Access is denied."), s)
      else if Int.land flag O_TRUNC != 0 && !wantsWrite flag then
        ((0, some "The parameter is incorrect."), s)
      else
        let files :=
          if Int.land flag O_TRUNC != 0 then
            updateFile s.files p (fun g => { g with data := [], mtime := now })
          else s.files
        ((s.next, none),
          { s with files := files, opened := (s.next, p, flag) :: s.opened,
                   next := s.next + 1, clock := s.clock + 1 })

/-- The embedded `webdav.Dir.Stat`: resolve the name, then `os.Stat`. -/
def memDirStat (dir name : String) (s : MemState) : (FileInfo × Option Error) × MemState :=
  let p := webdav.resolve dir name
  if p == "" then ((FileInfo.nil, some "file does not exist"), s)
  else
    match lookupFile s.files p with
    | none => ((FileInfo.nil, some "The system cannot find the file specified."), s)
    | some f => ((memInfo f, none), s)

def memFileStat (file : Nat) (s : MemState) : (FileInfo × Option Error) × MemState :=
  match (s.opened.find? (fun e => e.1 == file)).bind (fun e => lookupFile s.files e.2.1) with
  | none => ((FileInfo.nil, some "file already closed"), s)
  | some f => ((memInfo f, none), s)

/-- Only plain files are stored, so there is never a directory to list. -/
def memFileReaddir (_file : Nat) (_count : Int) (s : MemState) :
    (List FileInfo × Option Error) × MemState :=
  (([], some "not a directory"), s)

/-- A write through an open file: it appends the bytes and stamps the file with the clock. -/
def memFileWrite (file : Nat) (p : List Nat) (s : MemState) : (Int × Option Error) × MemState :=
  match s.opened.find? (fun e => e.1 == file) with
  | none => ((0, some "file already closed"), s)
  | some e =>
    if wantsWrite e.2.2 || Int.land e.2.2 O_APPEND != 0 then
      let now : Filetime := { LowDateTime := s.clock, HighDateTime := 0 }
      let put : MemFile → MemFile :=
        fun g => { g with data := g.data ++ p, atime := now, mtime := now }
      ((p.length, none), { s with files := updateFile s.files e.2.1 put, clock := s.clock + 1 })
    else ((0, some "Access is denied."), s)

def memFileClose (file : Nat) (s : MemState) : Option Error × MemState :=
  match s.opened.find? (fun e => e.1 == file) with
  | none => (some "file already closed", s)
  | some _ => (none, { s with opened := s.opened.filter (fun e => e.1 != file) })

/-- The reference host. -/
def memHost : Host MemState where
  CreateFile := memCreateFile
  GetFileTime := memGetFileTime
  SetFileTime := memSetFileTime
  CloseHandle := memCloseHandle
  DirStat := memDirStat
  DirOpenFile := memDirOpenFile
  FileStat := memFileStat
  FileReaddir := memFileReaddir
  FileWrite := memFileWrite
  FileClose := memFileClose

/-- A timestamp with the given low word. -/
def ft (n : Nat) : Filetime := { LowDateTime := n, HighDateTime := 0 }

/-- A world with one existing file `C:\dav\notes.txt`, stamped (10, 20, 30), that grants every
access. -/
def notesWorld : World MemState where
  host :=
    { files := [{ path := "C:\\dav\\notes.txt", ctime := ft 10, atime := ft 20, mtime := ft 30,
                  data := [1, 2, 3], allowWrite := true, allowAppend := true }],
      handles := [], opened := [], next := 1, clock := 100 }
  trace := []

/-- The same file as an append-only log: the security descriptor grants `FILE_APPEND_DATA`
but not `GENERIC_WRITE`. -/
def logWorld : World MemState where
  host :=
    { files := [{ path := "C:\\dav\\notes.txt", ctime := ft 10, atime := ft 20, mtime := ft 30,
                  data := [1, 2, 3], allowWrite := false, allowAppend := true }],
      handles := [], opened := [], next := 1, clock := 100 }
  trace := []

/-- Two files of the same name, one inside the root `C:\dav` and one directly above it. -/
def twoFilesWorld : World MemState where
  host :=
    { files := [{ path := "C:\\secret.txt", ctime := ft 1, atime := ft 2, mtime := ft 3,
                  data := [7], allowWrite := true, allowAppend := true },
                { path := "C:\\dav\\secret.txt", ctime := ft 10, atime := ft 20, mtime := ft 30,
                  data := [1, 2, 3], allowWrite := true, allowAppend := true }],
      handles := [], opened := [], next := 1, clock := 100 }
  trace := []

/-- The root `C:\dav` with content types left to the underlying file system. -/
def davDir : Dir := { Dir := "C:\\dav", noSniff := false }

/-- The spec's scenario: `notes.txt` opened under the root with write and truncate flags. -/
def notesOpen : Outcome (Option noSniffFile × Option Error) × World MemState :=
  Dir.OpenFile memHost davDir "/notes.txt" (Int.lor O_WRONLY O_TRUNC) 0 notesWorld

/-- The handle that open returns. -/
def notesHandle : noSniffFile :=
  { File := 2, fullPath := "C:\\dav\\notes.txt", hasOrigTime := true, origCTime := ft 10,
    origATime := ft 20, origMTime := ft 30, flag := Int.lor O_WRONLY O_TRUNC }

/-- The entry into `restoreFileTimes` that a `Close` of the handle `f` makes. -/
def restoreMark (f : noSniffFile) : Event :=
  Event.restoreFileTimes f.fullPath f.origCTime f.origATime f.origMTime

/-- The metadata open that `getFileTimes` makes on a path. -/
def captureOpen (p : String) : Event :=
  Event.CreateFile p GENERIC_READ shareAll OPEN_EXISTING FILE_ATTRIBUTE_NORMAL

/-- A request path with an encoded NUL byte, as a client can send it (`/a%00b`). -/
def nulName : String := String.mk ['/', 'a', Char.ofNat 0, 'b']

/-- Does the restoration that `Close` runs for the handle `f` take effect from host state `s`:
the metadata open for writing and the `SetFileTime` call both succeed? -/
def restoreSucceeds {σ : Type} (h : Host σ) (f : noSniffFile) (s : σ) : Bool :=
  let r := h.CreateFile f.fullPath GENERIC_WRITE shareAll OPEN_EXISTING FILE_ATTRIBUTE_NORMAL s
  r.1.2.isNone && (h.SetFileTime r.1.1 f.origCTime f.origATime f.origMTime r.2).1.isNone

/-- The append-only log opened with `O_WRONLY|O_APPEND`. -/
def logOpen : Outcome (Option noSniffFile × Option Error) × World MemState :=
  Dir.OpenFile memHost davDir "/notes.txt" (Int.lor O_WRONLY O_APPEND) 0 logWorld

/-- The handle that open returns. -/
def logHandle : noSniffFile :=
  { File := 2, fullPath := "C:\\dav\\notes.txt", hasOrigTime := true, origCTime := ft 10,
    origATime := ft 20, origMTime := ft 30, flag := Int.lor O_WRONLY O_APPEND }

/-- The request name `/../secret.txt` opened under the root `C:\dav` with write and truncate
flags, in the world with two files of that name. -/
def climbOpen : Outcome (Option noSniffFile × Option Error) × World MemState :=
  Dir.OpenFile memHost davDir "/../secret.txt" (Int.lor O_WRONLY O_TRUNC) 0 twoFilesWorld

/-- The handle that open returns. -/
def climbHandle : noSniffFile :=
  { File := 2, fullPath := "C:\\secret.txt", hasOrigTime := true, origCTime := ft 1,
    origATime := ft 2, origMTime := ft 3, flag := Int.lor O_WRONLY O_TRUNC }

/-- A content-type table that knows `.docx` and nothing else (a stand-in for
`mime.TypeByExtension`, which answers `""` for an extension it has no type for). -/
def docxTable (ext : String) : String :=
  if ext == ".docx" then
    "application/vnd.openxmlformats-officedocument.wordprocessingml.document"
  else ""

/-- A file-system `os.FileInfo` with the given name. -/
def infoNamed (name : String) : FileInfo :=
  FileInfo.native
    { Name := name, Size := 3, Mode := 438, ModTime := 30, IsDir := false, ContentType := none }

/-! ## The runs of the functions of `files.go`, written out -/

/-- The sharing mode both timestamp functions pass to `CreateFile`. -/
theorem shareMode_eq : FILE_SHARE_READ ||| FILE_SHARE_WRITE ||| FILE_SHARE_DELETE = shareAll :=
  rfl

/-- The run of `restoreFileTimes`, case by case. -/
theorem restoreFileTimes_run {σ : Type} (h : Host σ) (p : String) (c a m : Filetime)
    (w : World σ) :
    restoreFileTimes h p c a m w =
      if hasNUL p then
        (Outcome.panic "syscall: string with NUL passed to StringToUTF16",
          { host := w.host, trace := w.trace ++ [Event.restoreFileTimes p c a m] })
      else
        let r := h.CreateFile p GENERIC_WRITE shareAll OPEN_EXISTING FILE_ATTRIBUTE_NORMAL w.host
        if r.1.2.isSome then
          (Outcome.ret (),
            { host := r.2,
              trace := w.trace ++ [Event.restoreFileTimes p c a m,
                Event.CreateFile p GENERIC_WRITE shareAll OPEN_EXISTING FILE_ATTRIBUTE_NORMAL] })
        else
          (Outcome.ret (),
            { host := (h.CloseHandle r.1.1 (h.SetFileTime r.1.1 c a m r.2).2).2,
              trace := w.trace ++ [Event.restoreFileTimes p c a m,
                Event.CreateFile p GENERIC_WRITE shareAll OPEN_EXISTING FILE_ATTRIBUTE_NORMAL,
                Event.SetFileTime r.1.1 c a m, Event.CloseHandle r.1.1] }) := by
  simp only [restoreFileTimes, bind, Run.bind, mark, StringToUTF16Ptr, call, pure, Run.pure,
    shareMode_eq]
  cases hn : hasNUL p
  · cases he :
        (h.CreateFile p GENERIC_WRITE shareAll OPEN_EXISTING FILE_ATTRIBUTE_NORMAL w.host).1.2.isSome
    · simp [he, Run.bind, Run.pure, call]
    · simp [he, Run.bind, Run.pure, call]
  · simp

/-- The run of `getFileTimes`, case by case. -/
theorem getFileTimes_run {σ : Type} (h : Host σ) (p : String) (c a m : Filetime)
    (w : World σ) :
    getFileTimes h p c a m w =
      if hasNUL p then
        (Outcome.panic "syscall: string with NUL passed to StringToUTF16",
          { host := w.host, trace := w.trace ++ [Event.getFileTimes p] })
      else
        let r := h.CreateFile p GENERIC_READ shareAll OPEN_EXISTING FILE_ATTRIBUTE_NORMAL w.host
        if r.1.2.isSome then
          (Outcome.ret (false, c, a, m),
            { host := r.2,
              trace := w.trace ++ [Event.getFileTimes p,
                Event.CreateFile p GENERIC_READ shareAll OPEN_EXISTING FILE_ATTRIBUTE_NORMAL] })
        else
          let g := h.GetFileTime r.1.1 (c, a, m) r.2
          (Outcome.ret (g.1.2.isNone, g.1.1),
            { host := (h.CloseHandle r.1.1 g.2).2,
              trace := w.trace ++ [Event.getFileTimes p,
                Event.CreateFile p GENERIC_READ shareAll OPEN_EXISTING FILE_ATTRIBUTE_NORMAL,
                Event.GetFileTime r.1.1, Event.CloseHandle r.1.1] }) := by
  simp only [getFileTimes, bind, Run.bind, mark, StringToUTF16Ptr, call, pure, Run.pure,
    shareMode_eq]
  cases hn : hasNUL p
  · cases he :
        (h.CreateFile p GENERIC_READ shareAll OPEN_EXISTING FILE_ATTRIBUTE_NORMAL w.host).1.2.isSome
    · simp [he, Run.bind, Run.pure, call]
    · simp [he, Run.bind, Run.pure, call]
  · simp

/-- The run of `Close`: the underlying close, then the restoration when the gate is open. -/
theorem Close_run {σ : Type} (h : Host σ) (f : noSniffFile) (w : World σ) :
    noSniffFile.Close h f w =
      let r := h.FileClose f.File w.host
      let w1 : World σ := { host := r.2, trace := w.trace ++ [Event.FileClose f.File] }
      if f.hasOrigTime && writeIntent f.flag then
        match restoreFileTimes h f.fullPath f.origCTime f.origATime f.origMTime w1 with
        | (Outcome.ret _, w2) => (Outcome.ret r.1, w2)
        | (Outcome.panic msg, w2) => (Outcome.panic msg, w2)
      else (Outcome.ret r.1, w1) := by
  simp only [noSniffFile.Close, bind, Run.bind, call, pure, Run.pure]
  cases hh : f.hasOrigTime <;> cases hw : writeIntent f.flag <;>
    simp only [Run.bind, Run.pure, Bool.not_false, Bool.not_true, if_true, if_false,
      Bool.false_eq_true, Bool.and_self, Bool.and_true, Bool.and_false, Bool.false_and]
  generalize restoreFileTimes h f.fullPath f.origCTime f.origATime f.origMTime
    { host := (h.FileClose f.File w.host).2, trace := w.trace ++ [Event.FileClose f.File] } = r
  rcases r with ⟨o, w2⟩
  cases o <;> rfl

/-- The run of `Dir.OpenFile`: the capture, then the underlying open. -/
theorem OpenFile_run {σ : Type} (h : Host σ) (d : Dir) (name : String) (flag : Int)
    (perm : Nat) (w : World σ) :
    Dir.OpenFile h d name flag perm w =
      match getFileTimes h (filepath.Join [d.Dir, name]) (ft 0) (ft 0) (ft 0) w with
      | (Outcome.panic msg, w1) => (Outcome.panic msg, w1)
      | (Outcome.ret g, w1) =>
        let r := h.DirOpenFile d.Dir name flag perm w1.host
        let w2 : World σ :=
          { host := r.2, trace := w1.trace ++ [Event.DirOpenFile d.Dir name flag perm] }
        if r.1.2.isSome then (Outcome.ret (none, r.1.2), w2)
        else
          (Outcome.ret
            (some { File := r.1.1, fullPath := filepath.Join [d.Dir, name],
                    hasOrigTime := g.1, origCTime := g.2.1, origATime := g.2.2.1,
                    origMTime := g.2.2.2, flag := flag }, none), w2) := by
  simp only [Dir.OpenFile, bind, Run.bind, call, pure, Run.pure, ft]
  generalize getFileTimes h (filepath.Join [d.Dir, name]) { LowDateTime := 0, HighDateTime := 0 }
    { LowDateTime := 0, HighDateTime := 0 } { LowDateTime := 0, HighDateTime := 0 } w = r
  rcases r with ⟨o, w1⟩
  cases o with
  | panic msg => rfl
  | ret g =>
    simp only
    cases he : (h.DirOpenFile d.Dir name flag perm w1.host).1.2.isSome <;>
      simp [Run.pure, Run.bind]
theorem nat_or_eq_zero (p q : Nat) : p ||| q = 0 ↔ p = 0 ∧ q = 0 := by
  constructor
  · intro h
    have key : ∀ i, (p.testBit i || q.testBit i) = false := by
      intro i
      have := congrArg (fun x => Nat.testBit x i) h
      simpa using this
    constructor
    · apply Nat.eq_of_testBit_eq
      intro i
      have := key i
      simp only [Bool.or_eq_false_iff] at this
      simp [this.1]
    · apply Nat.eq_of_testBit_eq
      intro i
      have := key i
      simp only [Bool.or_eq_false_iff] at this
      simp [this.2]
  · rintro ⟨rfl, rfl⟩
    rfl

theorem nat_ldiff_or (a b n : Nat) : Nat.ldiff (a ||| b) n = Nat.ldiff a n ||| Nat.ldiff b n := by
  apply Nat.eq_of_testBit_eq
  intro i
  simp only [Nat.testBit_ldiff, Nat.testBit_or]
  cases a.testBit i <;> cases b.testBit i <;> cases n.testBit i <;> rfl

theorem land_or_eq_zero (x : Int) (a b : Nat) :
    Int.land x (Int.ofNat (a ||| b)) = 0 ↔
      Int.land x (Int.ofNat a) = 0 ∧ Int.land x (Int.ofNat b) = 0 := by
  cases x with
  | ofNat n =>
    show ((n &&& (a ||| b) : Nat) : Int) = 0 ↔ ((n &&& a : Nat) : Int) = 0 ∧ ((n &&& b : Nat) : Int) = 0
    rw [Nat.and_or_distrib_left]
    simp only [Int.natCast_eq_zero]
    exact nat_or_eq_zero _ _
  | negSucc n =>
    show ((Nat.ldiff (a ||| b) n : Nat) : Int) = 0 ↔
      ((Nat.ldiff a n : Nat) : Int) = 0 ∧ ((Nat.ldiff b n : Nat) : Int) = 0
    rw [nat_ldiff_or]
    simp only [Int.natCast_eq_zero]
    exact nat_or_eq_zero _ _

theorem writeIntent_iff (flag : Int) :
    writeIntent flag = true ↔
      (Int.land flag O_WRONLY ≠ 0 ∨ Int.land flag O_RDWR ≠ 0 ∨ Int.land flag O_CREATE ≠ 0 ∨
        Int.land flag O_TRUNC ≠ 0 ∨ Int.land flag O_APPEND ≠ 0) := by
  have hm : writeMask = Int.ofNat ((((1 ||| 2) ||| 64) ||| 512) ||| 1024) := by decide
  have key : Int.land flag writeMask = 0 ↔
      (Int.land flag O_WRONLY = 0 ∧ Int.land flag O_RDWR = 0 ∧ Int.land flag O_CREATE = 0 ∧
        Int.land flag O_TRUNC = 0 ∧ Int.land flag O_APPEND = 0) := by
    rw [hm, land_or_eq_zero, land_or_eq_zero, land_or_eq_zero, land_or_eq_zero]
    show _ ↔ (Int.land flag (Int.ofNat 1) = 0 ∧ Int.land flag (Int.ofNat 2) = 0 ∧
      Int.land flag (Int.ofNat 64) = 0 ∧ Int.land flag (Int.ofNat 512) = 0 ∧
      Int.land flag (Int.ofNat 1024) = 0)
    tauto
  unfold writeIntent
  simp only [bne_iff_ne, ne_eq]
  rw [key]
  tauto
/-! ## Traces of the two timestamp functions -/

theorem eventsSince_append {σ : Type} (w : World σ) (s : σ) (evs : List Event) :
    eventsSince w { host := s, trace := w.trace ++ evs } = evs := by
  simp [eventsSince]

/-- The events of `restoreFileTimes`: its entry mark, then system calls only. -/
theorem restoreFileTimes_events {σ : Type} (h : Host σ) (p : String) (c a m : Filetime)
    (w : World σ) :
    ∃ tl, (restoreFileTimes h p c a m w).2.trace
        = w.trace ++ Event.restoreFileTimes p c a m :: tl ∧
      restoreCalls tl = [] ∧ ∀ e ∈ tl, e.isFileClose = false := by
  rw [restoreFileTimes_run]
  cases hn : hasNUL p
  · cases he :
        (h.CreateFile p GENERIC_WRITE shareAll OPEN_EXISTING FILE_ATTRIBUTE_NORMAL w.host).1.2.isSome
    · exact ⟨_, by simp [he]; rfl, by simp [restoreCalls, Event.isRestore],
        by simp [Event.isFileClose]⟩
    · exact ⟨_, by simp [he]; rfl, by simp [restoreCalls, Event.isRestore],
        by simp [Event.isFileClose]⟩
  · exact ⟨[], by simp, by simp [restoreCalls], by simp⟩

/-- On a path without NUL byte `restoreFileTimes` returns. -/
theorem restoreFileTimes_returns {σ : Type} (h : Host σ) (p : String) (c a m : Filetime)
    (w : World σ) (hn : hasNUL p = false) :
    (restoreFileTimes h p c a m w).1 = Outcome.ret () := by
  rw [restoreFileTimes_run]
  simp only [hn, Bool.false_eq_true, if_false]
  split <;> rfl

/-- The gate of `Close`, as a proposition on the handle. -/
theorem gate_iff (f : noSniffFile) :
    (f.hasOrigTime && writeIntent f.flag) = true ↔
      (f.hasOrigTime = true ∧
        (Int.land f.flag O_WRONLY ≠ 0 ∨ Int.land f.flag O_RDWR ≠ 0 ∨
          Int.land f.flag O_CREATE ≠ 0 ∨ Int.land f.flag O_TRUNC ≠ 0 ∨
          Int.land f.flag O_APPEND ≠ 0)) := by
  rw [Bool.and_eq_true, writeIntent_iff]

/-- The events of one `Close`: the underlying close first, then whatever the restoration
adds when the gate is open. -/
theorem Close_events {σ : Type} (h : Host σ) (f : noSniffFile) (w : World σ) :
    ∃ post, (noSniffFile.Close h f w).2.trace = w.trace ++ Event.FileClose f.File :: post ∧
      (∀ e ∈ post, e.isFileClose = false) ∧
      restoreCalls post =
        (if (f.hasOrigTime && writeIntent f.flag) = true then
          [Event.restoreFileTimes f.fullPath f.origCTime f.origATime f.origMTime]
        else []) := by
  rw [Close_run]
  cases hg : (f.hasOrigTime && writeIntent f.flag)
  · exact ⟨[], by simp, by simp, by simp [restoreCalls]⟩
  · obtain ⟨tl, ht, hr, hc⟩ := restoreFileTimes_events h f.fullPath f.origCTime f.origATime
      f.origMTime
      { host := (h.FileClose f.File w.host).2, trace := w.trace ++ [Event.FileClose f.File] }
    refine ⟨Event.restoreFileTimes f.fullPath f.origCTime f.origATime f.origMTime :: tl,
      ?_, ?_, ?_⟩
    · simp only [if_true]
      revert ht
      generalize restoreFileTimes h f.fullPath f.origCTime f.origATime f.origMTime
        { host := (h.FileClose f.File w.host).2,
          trace := w.trace ++ [Event.FileClose f.File] } = r
      rcases r with ⟨o, w2⟩
      intro ht
      cases o <;> simpa using ht
    · intro e he
      rcases List.mem_cons.1 he with rfl | he
      · rfl
      · exact hc e he
    · simp only [restoreCalls, if_true] at hr ⊢
      simp [List.filter_cons, Event.isRestore, hr]

/-- Claim C2. The restoration gate: one call of `Close` enters `restoreFileTimes` exactly once,
with the handle's `fullPath` and the three timestamps stored at open, when `hasOrigTime` is
true and `flag` has one of `O_WRONLY`, `O_RDWR`, `O_CREATE`, `O_TRUNC`, `O_APPEND` set; in
every other case (a read-only flag combination, or a capture that failed, as for a newly
created file) it enters `restoreFileTimes` zero times. -/
theorem Close_restoration_gate {σ : Type} (h : Host σ) (f : noSniffFile) (w : World σ) :
    restoreCalls (newEvents w (noSniffFile.Close h f w)) =
      (if f.hasOrigTime = true ∧
          (Int.land f.flag O_WRONLY ≠ 0 ∨ Int.land f.flag O_RDWR ≠ 0 ∨
            Int.land f.flag O_CREATE ≠ 0 ∨ Int.land f.flag O_TRUNC ≠ 0 ∨
            Int.land f.flag O_APPEND ≠ 0) then
        [Event.restoreFileTimes f.fullPath f.origCTime f.origATime f.origMTime]
      else []) := by
  obtain ⟨post, ht, _, hr⟩ := Close_events h f w
  have hne : newEvents w (noSniffFile.Close h f w) = Event.FileClose f.File :: post := by
    simp [newEvents, eventsSince, ht]
  rw [hne]
  have : restoreCalls (Event.FileClose f.File :: post) = restoreCalls post := by
    simp [restoreCalls, List.filter_cons, Event.isRestore]
  rw [this, hr]
  by_cases hg : (f.hasOrigTime && writeIntent f.flag) = true
  · rw [if_pos hg, if_pos ((gate_iff f).1 hg)]
  · rw [if_neg hg, if_neg (fun hc => hg ((gate_iff f).2 hc))]
/-- A valid handle's `Close` returns, and returns what the underlying close returned. -/
theorem Close_returns {σ : Type} (h : Host σ) (f : noSniffFile) (w : World σ)
    (hv : f.valid) :
    (noSniffFile.Close h f w).1 = Outcome.ret (h.FileClose f.File w.host).1 := by
  rw [Close_run]
  cases hg : (f.hasOrigTime && writeIntent f.flag)
  · rfl
  · have hn : hasNUL f.fullPath = false := hv (Bool.and_eq_true _ _ ▸ hg).1
    have hr := restoreFileTimes_returns h f.fullPath f.origCTime f.origATime f.origMTime
      { host := (h.FileClose f.File w.host).2, trace := w.trace ++ [Event.FileClose f.File] } hn
    simp only [if_true]
    revert hr
    generalize restoreFileTimes h f.fullPath f.origCTime f.origATime f.origMTime
      { host := (h.FileClose f.File w.host).2,
        trace := w.trace ++ [Event.FileClose f.File] } = r
    rcases r with ⟨o, w2⟩
    intro hr
    cases o with
    | ret u => rfl
    | panic msg => simp at hr

/-- Claim C4. For every handle as `Dir.OpenFile` builds them, `Close` returns exactly the value
the underlying `File.Close` returned (`nil` or the same error), whatever `hasOrigTime` and
`flag` are and whatever the host makes of the restoration attempt; and when the underlying
close failed, the restoration is attempted all the same if the gate is open. -/
theorem Close_returns_underlying_error {σ : Type} (h : Host σ) (f : noSniffFile)
    (w : World σ) (hv : f.valid) :
    (noSniffFile.Close h f w).1 = Outcome.ret (h.FileClose f.File w.host).1 ∧
      ((h.FileClose f.File w.host).1 ≠ none → f.hasOrigTime = true →
        writeIntent f.flag = true →
          restoreMark f ∈ newEvents w (noSniffFile.Close h f w)) := by
  refine ⟨Close_returns h f w hv, ?_⟩
  intro _ ho hw
  obtain ⟨post, ht, _, hr⟩ := Close_events h f w
  have hg : (f.hasOrigTime && writeIntent f.flag) = true := by simp [ho, hw]
  rw [if_pos hg] at hr
  have hmem : restoreMark f ∈ restoreCalls post := by
    rw [hr]; exact List.mem_singleton.2 rfl
  have hpost : restoreMark f ∈ post := (List.mem_filter.1 hmem).1
  simp only [newEvents, eventsSince, ht, List.drop_left]
  exact List.mem_cons_of_mem _ hpost

/-- Witness for C4: a `Close` whose underlying close fails (the file is not open) still
returns that error and still attempts the restoration. -/
theorem Close_returns_underlying_error_witness :
    notesHandle.valid ∧
      (noSniffFile.Close memHost notesHandle notesWorld).1
        = Outcome.ret (some "file already closed") ∧
      restoreMark notesHandle ∈
        newEvents notesWorld (noSniffFile.Close memHost notesHandle notesWorld) :=
  have hv : notesHandle.valid := by decide
  ⟨hv, (Close_returns_underlying_error memHost notesHandle notesWorld hv).1,
    (Close_returns_underlying_error memHost notesHandle notesWorld hv).2
      (by decide) (by decide) (by decide)⟩

/-- Successive calls of `Close` on a valid handle: each adds its own events. -/
theorem closeTimes_events {σ : Type} (h : Host σ) (f : noSniffFile) (hv : f.valid) (n : Nat) :
    ∀ w : World σ, ∃ evs, (closeTimes h f n w).trace = w.trace ++ evs ∧
      restoreCalls evs =
        List.replicate (if (f.hasOrigTime && writeIntent f.flag) = true then n else 0)
          (restoreMark f) := by
  induction n with
  | zero => intro w; exact ⟨[], by simp [closeTimes], by simp [restoreCalls]⟩
  | succ n ih =>
    intro w
    obtain ⟨post, ht, _, hr⟩ := Close_events h f w
    have hret := Close_returns h f w hv
    simp only [closeTimes]
    revert ht hret
    generalize noSniffFile.Close h f w = r
    rcases r with ⟨o, w1⟩
    intro ht hret
    cases o with
    | panic msg => simp at hret
    | ret e =>
      simp only at ht ⊢
      obtain ⟨evs, he, hc⟩ := ih w1
      refine ⟨Event.FileClose f.File :: post ++ evs, ?_, ?_⟩
      · rw [he, ht]; simp
      · have hsplit : restoreCalls (Event.FileClose f.File :: post ++ evs)
            = restoreCalls post ++ restoreCalls evs := by
          simp [restoreCalls, List.filter_cons, Event.isRestore]
        rw [hsplit, hr, hc]
        by_cases hg : (f.hasOrigTime && writeIntent f.flag) = true
        · simp only [if_pos hg, restoreMark]
          rw [Nat.add_comm n 1, List.replicate_add]
          rfl
        · rw [if_neg hg, if_neg hg, if_neg hg]; rfl

/-- Claim C3, as amended. `Close` keeps no record of having run: every call of `Close` on a
handle whose `hasOrigTime` is true and whose `flag` has a write-intent bit enters
`restoreFileTimes` once, so `n` successive calls on one handle enter it `n` times (and zero
times when the gate is closed). -/
theorem Close_restores_on_every_call {σ : Type} (h : Host σ) (f : noSniffFile)
    (hv : f.valid) (n : Nat) (w : World σ) :
    restoreCalls (eventsSince w (closeTimes h f n w)) =
      List.replicate (if f.hasOrigTime = true ∧ writeIntent f.flag = true then n else 0)
        (restoreMark f) := by
  obtain ⟨evs, he, hc⟩ := closeTimes_events h f hv n w
  simp only [eventsSince, he, List.drop_left, hc, Bool.and_eq_true]

/-- Witness for C3 as amended: three calls of `Close` on the handle of `notes.txt`. -/
theorem Close_restores_on_every_call_witness :
    notesHandle.valid ∧
      restoreCalls (eventsSince notesOpen.2 (closeTimes memHost notesHandle 3 notesOpen.2)) =
        [restoreMark notesHandle, restoreMark notesHandle, restoreMark notesHandle] :=
  have hv : notesHandle.valid := by decide
  ⟨hv, Close_restores_on_every_call memHost notesHandle hv 3 notesOpen.2⟩

/-- Counterexample to C3 as stated: `notes.txt` exists and is opened with write and truncate
flags; calling `Close` twice on the returned handle enters `restoreFileTimes` twice, the
second time although the underlying close reports the file as already closed. -/
theorem second_Close_restores_again :
    notesOpen.1 = Outcome.ret (some notesHandle, none) ∧
      (noSniffFile.Close memHost notesHandle notesOpen.2).1 = Outcome.ret none ∧
      (noSniffFile.Close memHost notesHandle
          (noSniffFile.Close memHost notesHandle notesOpen.2).2).1
        = Outcome.ret (some "file already closed") ∧
      restoreCalls (eventsSince notesOpen.2 (closeTimes memHost notesHandle 2 notesOpen.2)) =
        [restoreMark notesHandle, restoreMark notesHandle] ∧
      ¬ (restoreCalls
          (eventsSince notesOpen.2 (closeTimes memHost notesHandle 2 notesOpen.2))).length
          ≤ 1 := by
  refine ⟨by decide, by decide, by decide, by decide, by decide⟩
/-! ## `Dir.OpenFile` -/

/-- The events of `getFileTimes`: its entry mark, the metadata open and, when that open gave
a handle, the query and the release of the handle as the last event. -/
theorem getFileTimes_events {σ : Type} (h : Host σ) (p : String) (c a m : Filetime)
    (w : World σ) :
    newEvents w (getFileTimes h p c a m w) = [Event.getFileTimes p] ∨
      newEvents w (getFileTimes h p c a m w) = [Event.getFileTimes p, captureOpen p] ∨
      ∃ hd, newEvents w (getFileTimes h p c a m w) =
        [Event.getFileTimes p, captureOpen p, Event.GetFileTime hd, Event.CloseHandle hd] := by
  rw [getFileTimes_run]
  cases hn : hasNUL p
  · cases he :
        (h.CreateFile p GENERIC_READ shareAll OPEN_EXISTING FILE_ATTRIBUTE_NORMAL w.host).1.2.isSome
    · right; right
      refine ⟨(h.CreateFile p GENERIC_READ shareAll OPEN_EXISTING FILE_ATTRIBUTE_NORMAL
        w.host).1.1, ?_⟩
      simp [he, newEvents, eventsSince, captureOpen]
    · right; left
      simp [he, newEvents, eventsSince, captureOpen]
  · left
    simp [newEvents, eventsSince]

/-- The trace of `getFileTimes` extends the trace it started from. -/
theorem getFileTimes_trace {σ : Type} (h : Host σ) (p : String) (c a m : Filetime)
    (w : World σ) :
    (getFileTimes h p c a m w).2.trace = w.trace ++ newEvents w (getFileTimes h p c a m w) := by
  rw [getFileTimes_run]
  cases hn : hasNUL p
  · cases he :
        (h.CreateFile p GENERIC_READ shareAll OPEN_EXISTING FILE_ATTRIBUTE_NORMAL w.host).1.2.isSome
    · simp [he, newEvents, eventsSince]
    · simp [he, newEvents, eventsSince]
  · simp [newEvents, eventsSince]

/-- Function `getFileTimes` panics exactly on a path with a NUL byte. -/
theorem getFileTimes_outcome {σ : Type} (h : Host σ) (p : String) (c a m : Filetime)
    (w : World σ) :
    (hasNUL p = true ∧ (getFileTimes h p c a m w).1
        = Outcome.panic "syscall: string with NUL passed to StringToUTF16") ∨
      (hasNUL p = false ∧ ∃ g, (getFileTimes h p c a m w).1 = Outcome.ret g) := by
  rw [getFileTimes_run]
  cases hn : hasNUL p
  · right
    refine ⟨rfl, ?_⟩
    cases he :
        (h.CreateFile p GENERIC_READ shareAll OPEN_EXISTING FILE_ATTRIBUTE_NORMAL w.host).1.2.isSome
    · simp only [he, Bool.false_eq_true, if_false]
      exact ⟨_, rfl⟩
    · simp only [he, if_true]
      exact ⟨_, rfl⟩
  · left
    exact ⟨rfl, by simp⟩

/-- The events of `Dir.OpenFile`: everything `getFileTimes` does, then the one call of the
underlying `Dir.OpenFile` with the caller's name, flag and perm; nothing when `getFileTimes`
panicked. -/
theorem OpenFile_events {σ : Type} (h : Host σ) (d : Dir) (name : String) (flag : Int)
    (perm : Nat) (w : World σ) :
    newEvents w (Dir.OpenFile h d name flag perm w) =
      newEvents w (getFileTimes h (filepath.Join [d.Dir, name]) (ft 0) (ft 0) (ft 0) w) ++
        (if hasNUL (filepath.Join [d.Dir, name]) then []
         else [Event.DirOpenFile d.Dir name flag perm]) := by
  have ht := getFileTimes_trace h (filepath.Join [d.Dir, name]) (ft 0) (ft 0) (ft 0) w
  have ho := getFileTimes_outcome h (filepath.Join [d.Dir, name]) (ft 0) (ft 0) (ft 0) w
  rw [OpenFile_run]
  revert ht ho
  generalize newEvents w (getFileTimes h (filepath.Join [d.Dir, name]) (ft 0) (ft 0) (ft 0) w)
    = evs
  generalize getFileTimes h (filepath.Join [d.Dir, name]) (ft 0) (ft 0) (ft 0) w = r
  rcases r with ⟨o, w1⟩
  intro ht ho
  simp only at ht
  cases o with
  | panic msg =>
    rcases ho with ⟨hn, _⟩ | ⟨_, g, hg⟩
    · simp [newEvents, eventsSince, ht, hn]
    · simp at hg
  | ret g =>
    rcases ho with ⟨_, hp⟩ | ⟨hn, _⟩
    · simp at hp
    · simp only [hn, Bool.false_eq_true, if_false]
      split <;> simp [newEvents, eventsSince, ht]

/-- Claim C6. Effect ordering. The events `Dir.OpenFile` adds to the trace are those of
`getFileTimes` (entry, metadata open and, when a handle was obtained, the query and the
release of that handle as the last of them) followed by the call of the underlying
`Dir.OpenFile`; the events `Close` adds begin with the call of the underlying `File.Close`,
and everything `restoreFileTimes` does comes after it. -/
theorem effect_ordering {σ : Type} (h : Host σ) (d : Dir) (name : String) (flag : Int)
    (perm : Nat) (f : noSniffFile) (w : World σ) :
    (∃ cap rest,
      newEvents w (Dir.OpenFile h d name flag perm w) = cap ++ rest ∧
      cap = newEvents w (getFileTimes h (filepath.Join [d.Dir, name]) (ft 0) (ft 0) (ft 0) w) ∧
      (cap = [Event.getFileTimes (filepath.Join [d.Dir, name])] ∨
        cap = [Event.getFileTimes (filepath.Join [d.Dir, name]),
               captureOpen (filepath.Join [d.Dir, name])] ∨
        ∃ hd, cap = [Event.getFileTimes (filepath.Join [d.Dir, name]),
                     captureOpen (filepath.Join [d.Dir, name]),
                     Event.GetFileTime hd, Event.CloseHandle hd]) ∧
      (rest = [Event.DirOpenFile d.Dir name flag perm] ∨ rest = [])) ∧
    (∃ post,
      newEvents w (noSniffFile.Close h f w) = Event.FileClose f.File :: post ∧
      (∀ e ∈ post, e.isFileClose = false) ∧
      restoreCalls post = restoreCalls (newEvents w (noSniffFile.Close h f w))) := by
  constructor
  · refine ⟨_, _, OpenFile_events h d name flag perm w, rfl,
      getFileTimes_events h _ _ _ _ w, ?_⟩
    cases hasNUL (filepath.Join [d.Dir, name])
    · left; rfl
    · right; rfl
  · obtain ⟨post, ht, hc, _⟩ := Close_events h f w
    have hne : newEvents w (noSniffFile.Close h f w) = Event.FileClose f.File :: post := by
      simp [newEvents, eventsSince, ht]
    refine ⟨post, hne, hc, ?_⟩
    rw [hne]
    simp [restoreCalls, List.filter_cons, Event.isRestore]

/-- What `Dir.OpenFile` returns when the captured path has no NUL byte: the error of the
underlying open and a nil handle, or a handle carrying the capture. -/
theorem OpenFile_result {σ : Type} (h : Host σ) (d : Dir) (name : String) (flag : Int)
    (perm : Nat) (w : World σ) (hn : hasNUL (filepath.Join [d.Dir, name]) = false) :
    ∃ g w1, getFileTimes h (filepath.Join [d.Dir, name]) (ft 0) (ft 0) (ft 0) w
        = (Outcome.ret g, w1) ∧
      (Dir.OpenFile h d name flag perm w).1 =
        (if (h.DirOpenFile d.Dir name flag perm w1.host).1.2.isSome then
          Outcome.ret (none, (h.DirOpenFile d.Dir name flag perm w1.host).1.2)
        else
          Outcome.ret
            (some { File := (h.DirOpenFile d.Dir name flag perm w1.host).1.1,
                    fullPath := filepath.Join [d.Dir, name], hasOrigTime := g.1,
                    origCTime := g.2.1, origATime := g.2.2.1, origMTime := g.2.2.2,
                    flag := flag }, none)) := by
  have ho := getFileTimes_outcome h (filepath.Join [d.Dir, name]) (ft 0) (ft 0) (ft 0) w
  rw [OpenFile_run]
  revert ho
  generalize getFileTimes h (filepath.Join [d.Dir, name]) (ft 0) (ft 0) (ft 0) w = r
  rcases r with ⟨o, w1⟩
  intro ho
  cases o with
  | panic msg =>
    rcases ho with ⟨hp, _⟩ | ⟨_, g, hg⟩
    · rw [hn] at hp; cases hp
    · simp at hg
  | ret g =>
    refine ⟨g, w1, rfl, ?_⟩
    simp only
    split <;> rfl

/-- Every handle `Dir.OpenFile` returns is valid: with `hasOrigTime` set, its `fullPath` has
no NUL byte. -/
theorem OpenFile_valid {σ : Type} (h : Host σ) (d : Dir) (name : String) (flag : Int)
    (perm : Nat) (w : World σ) (f : noSniffFile) (e : Option Error)
    (hf : (Dir.OpenFile h d name flag perm w).1 = Outcome.ret (some f, e)) : f.valid := by
  cases hn : hasNUL (filepath.Join [d.Dir, name])
  · obtain ⟨g, w1, _, hr⟩ := OpenFile_result h d name flag perm w hn
    rw [hr] at hf
    split at hf
    · simp at hf
    · simp only [Outcome.ret.injEq, Prod.mk.injEq, Option.some.injEq] at hf
      intro _
      rw [← hf.1]
      exact hn
  · have ho := getFileTimes_outcome h (filepath.Join [d.Dir, name]) (ft 0) (ft 0) (ft 0) w
    rw [OpenFile_run] at hf
    revert ho hf
    generalize getFileTimes h (filepath.Join [d.Dir, name]) (ft 0) (ft 0) (ft 0) w = r
    rcases r with ⟨o, w1⟩
    intro hf ho
    cases o with
    | panic msg => simp at hf
    | ret g =>
      rcases ho with ⟨_, hp⟩ | ⟨hq, _⟩
      · simp at hp
      · rw [hn] at hq; cases hq

/-- Claim C5, at its failing input. For the root `C:\dav` and the request name `/a<NUL>b`,
on every host and in every world, `Dir.OpenFile` panics inside `getFileTimes` (the path it joins from
root and name carries the NUL byte into `StringToUTF16Ptr`) and never calls the underlying
`Dir.OpenFile`; the underlying `webdav.Dir` itself refuses the same name with an ordinary
error. -/
theorem OpenFile_panics_on_NUL {σ : Type} (h : Host σ) (flag : Int) (perm : Nat)
    (w : World σ) :
    (Dir.OpenFile h davDir nulName flag perm w).1
        = Outcome.panic "syscall: string with NUL passed to StringToUTF16" ∧
      dirOpenCalls (newEvents w (Dir.OpenFile h davDir nulName flag perm w)) = [] ∧
      webdav.resolve davDir.Dir nulName = "" ∧
      (memHost.DirOpenFile davDir.Dir nulName O_RDONLY 0 notesWorld.host).1.2
        = some "file does not exist" := by
  have hn : hasNUL (filepath.Join [davDir.Dir, nulName]) = true := by decide
  refine ⟨?_, ?_, by decide, by decide⟩
  · rcases getFileTimes_outcome h (filepath.Join [davDir.Dir, nulName]) (ft 0) (ft 0) (ft 0) w
      with ⟨_, hp⟩ | ⟨hq, _⟩
    · rw [OpenFile_run]
      revert hp
      generalize getFileTimes h (filepath.Join [davDir.Dir, nulName]) (ft 0) (ft 0) (ft 0) w
        = r
      rcases r with ⟨o, w1⟩
      intro hp
      simp only at hp
      rw [hp]
    · rw [hn] at hq; cases hq
  · rw [OpenFile_events, hn]
    rcases getFileTimes_events h (filepath.Join [davDir.Dir, nulName]) (ft 0) (ft 0) (ft 0) w
      with he | he | ⟨hd, he⟩ <;>
      rw [he] <;> simp [dirOpenCalls, List.filter_cons, Event.isDirOpenFile, captureOpen]
/-! ## The timestamp round trip -/

/-- On a lawful host a successful capture returns the triple the file has. -/
theorem getFileTimes_captures {σ : Type} (h : Host σ)
    (times : σ → String → Option (Filetime × Filetime × Filetime))
    (pathOf : σ → Handle → Option String) (fileOf : σ → Nat → Option String)
    (laws : HostLaws h times pathOf fileOf)
    (p : String) (c a m : Filetime) (w : World σ) (t : Filetime × Filetime × Filetime)
    (hg : (getFileTimes h p c a m w).1 = Outcome.ret (true, t)) :
    times w.host p = some t := by
  rw [getFileTimes_run] at hg
  cases hn : hasNUL p
  · simp only [hn, Bool.false_eq_true, if_false] at hg
    cases he :
        (h.CreateFile p GENERIC_READ shareAll OPEN_EXISTING FILE_ATTRIBUTE_NORMAL w.host).1.2
    · simp only [he, Option.isSome_none, Bool.false_eq_true, if_false, Outcome.ret.injEq,
        Prod.mk.injEq, Option.isNone_iff_eq_none] at hg
      obtain ⟨hnone, ht⟩ := hg
      have hc := laws.createFile p GENERIC_READ shareAll FILE_ATTRIBUTE_NORMAL w.host
        (h.CreateFile p GENERIC_READ shareAll OPEN_EXISTING FILE_ATTRIBUTE_NORMAL w.host).1.1
        (h.CreateFile p GENERIC_READ shareAll OPEN_EXISTING FILE_ATTRIBUTE_NORMAL w.host).2
        (by rw [← he])
      have hq := laws.getFileTime _ (c, a, m) _ t _ p
        (Prod.ext (Prod.ext ht hnone) rfl) hc.1
      rw [← hc.2 p]
      exact hq
    · simp [he] at hg
  · simp [hn] at hg

/-- On a lawful host a restoration whose open and whose `SetFileTime` succeed leaves the file
with the triple it was given. -/
theorem restoreFileTimes_restores {σ : Type} (h : Host σ)
    (times : σ → String → Option (Filetime × Filetime × Filetime))
    (pathOf : σ → Handle → Option String) (fileOf : σ → Nat → Option String)
    (laws : HostLaws h times pathOf fileOf)
    (f : noSniffFile) (w : World σ) (hn : hasNUL f.fullPath = false)
    (hs : restoreSucceeds h f w.host = true) :
    times (restoreFileTimes h f.fullPath f.origCTime f.origATime f.origMTime w).2.host
        f.fullPath
      = some (f.origCTime, f.origATime, f.origMTime) := by
  rw [restoreFileTimes_run]
  simp only [restoreSucceeds, Bool.and_eq_true, Option.isNone_iff_eq_none] at hs
  obtain ⟨he, hset⟩ := hs
  simp only [hn, Bool.false_eq_true, if_false, he, Option.isSome_none]
  have hc := laws.createFile f.fullPath GENERIC_WRITE shareAll FILE_ATTRIBUTE_NORMAL w.host
    (h.CreateFile f.fullPath GENERIC_WRITE shareAll OPEN_EXISTING FILE_ATTRIBUTE_NORMAL
      w.host).1.1
    (h.CreateFile f.fullPath GENERIC_WRITE shareAll OPEN_EXISTING FILE_ATTRIBUTE_NORMAL
      w.host).2
    (by rw [← he])
  rw [laws.closeHandle]
  exact laws.setFileTime _ f.origCTime f.origATime f.origMTime _ _ f.fullPath
    (Prod.ext hset rfl) hc.1

/-- Claim C1, as amended. Timestamp round trip on a host whose timestamp calls act on the
file behind the handle (`HostLaws`). For every root, name and flag with a write-intent bit:
let `q` be the file behind the handle that `Dir.OpenFile` returns; when `getFileTimes`
succeeded and ran on that file (`hon`), then after any sequence of writes through the handle
followed by `Close`, provided the restoration's metadata open and its `SetFileTime` both
succeed (`hrest`), the file has the (creation, last-access, last-modification) triple it had
immediately before `OpenFile`. -/
theorem timestamps_restored {σ : Type} (h : Host σ)
    (times : σ → String → Option (Filetime × Filetime × Filetime))
    (pathOf : σ → Handle → Option String) (fileOf : σ → Nat → Option String)
    (laws : HostLaws h times pathOf fileOf)
    (d : Dir) (name : String) (flag : Int) (perm : Nat) (w0 : World σ) (f : noSniffFile)
    (ps : List (List Nat)) (q : String)
    (hopen : (Dir.OpenFile h d name flag perm w0).1 = Outcome.ret (some f, none))
    (hfile : fileOf (Dir.OpenFile h d name flag perm w0).2.host f.File = some q)
    (hcap : f.hasOrigTime = true)
    (hon : f.fullPath = q)
    (hflag : writeIntent flag = true)
    (hrest : restoreSucceeds h f
      (h.FileClose f.File (writeAll h f ps (Dir.OpenFile h d name flag perm w0).2).host).2
        = true) :
    times w0.host q = some (f.origCTime, f.origATime, f.origMTime) ∧
      times (noSniffFile.Close h f
          (writeAll h f ps (Dir.OpenFile h d name flag perm w0).2)).2.host q
        = times w0.host q := by
  subst hon
  clear hfile
  have hv : f.valid := OpenFile_valid h d name flag perm w0 f none hopen
  have hn : hasNUL f.fullPath = false := hv hcap
  -- what the open stored in the handle
  have hstored : f.fullPath = filepath.Join [d.Dir, name] ∧ f.flag = flag ∧
      (getFileTimes h (filepath.Join [d.Dir, name]) (ft 0) (ft 0) (ft 0) w0).1
        = Outcome.ret (f.hasOrigTime, f.origCTime, f.origATime, f.origMTime) := by
    cases hj : hasNUL (filepath.Join [d.Dir, name])
    · obtain ⟨g, w1, hg, hr⟩ := OpenFile_result h d name flag perm w0 hj
      rw [hr] at hopen
      split at hopen
      · simp at hopen
      · simp only [Outcome.ret.injEq, Prod.mk.injEq, Option.some.injEq, and_true] at hopen
        subst hopen
        exact ⟨rfl, rfl, by rw [hg]⟩
    · rcases getFileTimes_outcome h (filepath.Join [d.Dir, name]) (ft 0) (ft 0) (ft 0) w0
        with ⟨_, hp⟩ | ⟨hq, _⟩
      · rw [OpenFile_run] at hopen
        revert hp hopen
        generalize getFileTimes h (filepath.Join [d.Dir, name]) (ft 0) (ft 0) (ft 0) w0 = r
        rcases r with ⟨o, w1⟩
        intro hopen hp
        simp only at hp
        subst hp
        simp at hopen
      · rw [hj] at hq; cases hq
  obtain ⟨hpath, hfl, hget⟩ := hstored
  have hbefore : times w0.host f.fullPath = some (f.origCTime, f.origATime, f.origMTime) := by
    rw [hcap] at hget
    rw [hpath]
    exact getFileTimes_captures h times pathOf fileOf laws _ _ _ _ w0 _ hget
  refine ⟨hbefore, ?_⟩
  rw [hbefore, Close_run]
  have hg : (f.hasOrigTime && writeIntent f.flag) = true := by simp [hcap, hfl, hflag]
  simp only [hg, if_true]
  have hr := restoreFileTimes_restores h times pathOf fileOf laws f
    { host := (h.FileClose f.File
        (writeAll h f ps (Dir.OpenFile h d name flag perm w0).2).host).2,
      trace := (writeAll h f ps (Dir.OpenFile h d name flag perm w0).2).trace
        ++ [Event.FileClose f.File] } hn hrest
  revert hr
  generalize restoreFileTimes h f.fullPath f.origCTime f.origATime f.origMTime
    { host := (h.FileClose f.File
        (writeAll h f ps (Dir.OpenFile h d name flag perm w0).2).host).2,
      trace := (writeAll h f ps (Dir.OpenFile h d name flag perm w0).2).trace
        ++ [Event.FileClose f.File] } = r
  rcases r with ⟨o, w2⟩
  intro hr
  cases o <;> exact hr
/-! ## The reference host is lawful -/

theorem lookupFile_updateFile (fs : List MemFile) (p : String) (g : MemFile → MemFile)
    (hg : ∀ f, (g f).path = f.path) (f : MemFile) (hf : lookupFile fs p = some f) :
    lookupFile (updateFile fs p g) p = some (g f) := by
  induction fs with
  | nil => simp [lookupFile] at hf
  | cons x xs ih =>
    simp only [lookupFile, updateFile, List.map_cons, List.find?_cons] at hf ⊢
    cases hx : (x.path == p)
    · simp only [hx, Bool.false_eq_true, if_false] at hf ⊢
      exact ih hf
    · simp only [hx, if_true, Option.some.injEq] at hf ⊢
      have : ((g x).path == p) = true := by rw [hg]; exact hx
      simp only [this]
      rw [hf]

theorem lookupFile_updateFile_ne (fs : List MemFile) (p q : String) (g : MemFile → MemFile)
    (hg : ∀ f, (g f).path = f.path) (hpq : p ≠ q) :
    lookupFile (updateFile fs p g) q = lookupFile fs q := by
  induction fs with
  | nil => rfl
  | cons x xs ih =>
    simp only [lookupFile, updateFile, List.map_cons, List.find?_cons] at ih ⊢
    by_cases hx : x.path = p
    · have h1 : (x.path == p) = true := by simp [hx]
      have h2 : ((g x).path == q) = false := by
        rw [hg, hx]; simpa using hpq
      have h3 : (x.path == q) = false := by
        rw [hx]; simpa using hpq
      simp only [h1, if_true, h2, h3]
      exact ih
    · have h1 : (x.path == p) = false := by simpa using hx
      simp only [h1, Bool.false_eq_true, if_false]
      cases (x.path == q)
      · exact ih
      · rfl

theorem memHost_laws : HostLaws memHost memTimes memPathOf memFileOf where
  write := by
    intro file p s q hq
    simp only [memHost, memFileWrite]
    cases he : s.opened.find? (fun e => e.1 == file) with
    | none => rfl
    | some e =>
      simp only
      split
      · have hne : e.2.1 ≠ q := by
          intro hc
          apply hq
          simp [memFileOf, he, hc]
        simp only [memTimes]
        rw [lookupFile_updateFile_ne s.files e.2.1 q
          (fun g => { g with data := g.data ++ p,
                             atime := { LowDateTime := s.clock, HighDateTime := 0 },
                             mtime := { LowDateTime := s.clock, HighDateTime := 0 } })
          (fun _ => rfl) hne]
      · rfl
  createFile := by
    intro name access mode attrs s hd s1 hc
    simp only [memHost, memCreateFile] at hc
    split at hc
    · simp at hc
    · split at hc
      · simp at hc
      · simp only [Prod.mk.injEq, and_true] at hc
        obtain ⟨hhd, hs⟩ := hc
        subst hhd hs
        exact ⟨by simp [memPathOf], fun q => rfl⟩
  getFileTime := by
    intro hd cur s t s1 p hq hp
    simp only [memHost, memGetFileTime, hp] at hq
    split at hq
    · simp at hq
    · rename_i t1 ht1
      simp only [Prod.mk.injEq, and_true] at hq
      rw [ht1, hq.1]
  setFileTime := by
    intro hd c a m s s1 p hq hp
    simp only [memHost, memSetFileTime, hp] at hq
    split at hq
    · simp at hq
    · rename_i g hg
      simp only [Prod.mk.injEq, true_and] at hq
      subst hq
      simp only [memTimes]
      rw [lookupFile_updateFile s.files p
        (fun f => { f with ctime := c, atime := a, mtime := m }) (fun _ => rfl) g hg]
      rfl
  closeHandle := by
    intro hd s q
    simp only [memHost, memCloseHandle]
    split <;> rfl

/-- Witness for C1 as amended: `notes.txt`, stamped (10, 20, 30), is opened with write and
truncate flags, written to and closed; the capture ran on the file that was opened, the
restoration succeeds and the triple is back. -/
theorem timestamps_restored_witness :
    (Dir.OpenFile memHost davDir "/notes.txt" (Int.lor O_WRONLY O_TRUNC) 0 notesWorld).1
        = Outcome.ret (some notesHandle, none) ∧
      memFileOf (Dir.OpenFile memHost davDir "/notes.txt" (Int.lor O_WRONLY O_TRUNC) 0
          notesWorld).2.host notesHandle.File = some "C:\\dav\\notes.txt" ∧
      memTimes (writeAll memHost notesHandle [[9, 9]]
          (Dir.OpenFile memHost davDir "/notes.txt" (Int.lor O_WRONLY O_TRUNC) 0
            notesWorld).2).host "C:\\dav\\notes.txt"
        = some (ft 10, ft 101, ft 101) ∧
      memTimes notesWorld.host "C:\\dav\\notes.txt" = some (ft 10, ft 20, ft 30) ∧
      memTimes (noSniffFile.Close memHost notesHandle
          (writeAll memHost notesHandle [[9, 9]]
            (Dir.OpenFile memHost davDir "/notes.txt" (Int.lor O_WRONLY O_TRUNC) 0
              notesWorld).2)).2.host "C:\\dav\\notes.txt"
        = memTimes notesWorld.host "C:\\dav\\notes.txt" :=
  have hopen : (Dir.OpenFile memHost davDir "/notes.txt" (Int.lor O_WRONLY O_TRUNC) 0
      notesWorld).1 = Outcome.ret (some notesHandle, none) := by decide
  have hfile : memFileOf (Dir.OpenFile memHost davDir "/notes.txt"
      (Int.lor O_WRONLY O_TRUNC) 0 notesWorld).2.host notesHandle.File
        = some "C:\\dav\\notes.txt" := by decide
  have key := timestamps_restored memHost memTimes memPathOf memFileOf memHost_laws davDir
    "/notes.txt" (Int.lor O_WRONLY O_TRUNC) 0 notesWorld notesHandle [[9, 9]]
    "C:\\dav\\notes.txt" hopen hfile (by decide) (by decide) (by decide) (by decide)
  ⟨hopen, hfile, by decide, by decide, key.2⟩

/-- Where the capture ran on another file than the one opened, the round trip has nothing to
say: for the name `/../secret.txt` under `C:\dav` no lawful `fileOf` places the opened file
at the handle's `fullPath`, because the write through the handle changes the timestamps of
`C:\dav\secret.txt`. -/
theorem round_trip_needs_capture_on_opened_file (fileOf : MemState → Nat → Option String)
    (laws : HostLaws memHost memTimes memPathOf fileOf) :
    fileOf climbOpen.2.host climbHandle.File ≠ some climbHandle.fullPath := by
  intro hc
  have hne : fileOf climbOpen.2.host climbHandle.File ≠ some "C:\\dav\\secret.txt" := by
    rw [hc]; decide
  have hw := laws.write climbHandle.File [9, 9] climbOpen.2.host "C:\\dav\\secret.txt" hne
  revert hw
  decide

/-- Counterexample to C1 as stated: an append-only log (its security descriptor grants
`FILE_APPEND_DATA`, not `GENERIC_WRITE`) exists with the triple (10, 20, 30); it is opened
with `O_WRONLY|O_APPEND`, the capture succeeds on the very path that is opened, a write goes
through and `Close` returns `nil`; the restoration's metadata open is denied and the file
keeps the last-access and last-modification times of the write. -/
theorem timestamps_not_restored :
    writeIntent (Int.lor O_WRONLY O_APPEND) = true ∧
      memTimes logWorld.host "C:\\dav\\notes.txt" = some (ft 10, ft 20, ft 30) ∧
      logOpen.1 = Outcome.ret (some logHandle, none) ∧
      logHandle.hasOrigTime = true ∧
      logHandle.fullPath = webdav.resolve davDir.Dir "/notes.txt" ∧
      (noSniffFile.Write memHost logHandle [9, 9] logOpen.2).1 = Outcome.ret (2, none) ∧
      (noSniffFile.Close memHost logHandle
          (writeAll memHost logHandle [[9, 9]] logOpen.2)).1 = Outcome.ret none ∧
      restoreSucceeds memHost logHandle
          (memHost.FileClose logHandle.File
            (writeAll memHost logHandle [[9, 9]] logOpen.2).host).2 = false ∧
      memTimes (noSniffFile.Close memHost logHandle
          (writeAll memHost logHandle [[9, 9]] logOpen.2)).2.host "C:\\dav\\notes.txt"
        = some (ft 10, ft 101, ft 101) ∧
      memTimes (noSniffFile.Close memHost logHandle
          (writeAll memHost logHandle [[9, 9]] logOpen.2)).2.host "C:\\dav\\notes.txt"
        ≠ memTimes logWorld.host "C:\\dav\\notes.txt" := by
  refine ⟨by decide, by decide, by decide, by decide, by decide, by decide, by decide,
    by decide, by decide, by decide⟩

/-- Claim C9, at its failing input. The path `Dir.OpenFile` captures from is not the path the
underlying `webdav.Dir` opens: for the root `C:\dav` and the name `/../secret.txt` the first
is `C:\secret.txt`, outside the root, and the second `C:\dav\secret.txt`; for the empty root
and the name `/notes.txt` the first is `\notes.txt`, in the root of the current drive, and
the second `notes.txt`, in the working directory. Run on two files of the first kind, the
triple is captured from and restored onto `C:\secret.txt` while `C:\dav\secret.txt`, the
file opened and written, keeps the times of the write. -/
theorem capture_path_differs_from_opened_path :
    filepath.Join [davDir.Dir, "/../secret.txt"] = "C:\\secret.txt" ∧
      webdav.resolve davDir.Dir "/../secret.txt" = "C:\\dav\\secret.txt" ∧
      filepath.Join ["", "/notes.txt"] = "\\notes.txt" ∧
      webdav.resolve "" "/notes.txt" = "notes.txt" ∧
      climbOpen.1 = Outcome.ret (some climbHandle, none) ∧
      climbOpen.2.host.opened = [(2, "C:\\dav\\secret.txt", Int.lor O_WRONLY O_TRUNC)] ∧
      restoreCalls (noSniffFile.Close memHost climbHandle
          (writeAll memHost climbHandle [[9, 9]] climbOpen.2)).2.trace
        = [Event.restoreFileTimes "C:\\secret.txt" (ft 1) (ft 2) (ft 3)] ∧
      memTimes twoFilesWorld.host "C:\\dav\\secret.txt" = some (ft 10, ft 20, ft 30) ∧
      memTimes (noSniffFile.Close memHost climbHandle
          (writeAll memHost climbHandle [[9, 9]] climbOpen.2)).2.host "C:\\dav\\secret.txt"
        = some (ft 10, ft 101, ft 101) := by
  refine ⟨by decide, by decide, by decide, by decide, by decide, by decide, by decide,
    by decide, by decide⟩
/-! ## Content types and metadata wrapping -/

/-- Without a dot there is no extension. -/
theorem extScan_no_dot (l acc : List Char) (hl : ∀ c ∈ l, c ≠ '.') : path.extScan l acc = [] := by
  induction l generalizing acc with
  | nil => rfl
  | cons c rest ih =>
    have hc : c ≠ '.' := hl c (List.mem_cons_self _ _)
    have hrest : ∀ x ∈ rest, x ≠ '.' := fun x hx => hl x (List.mem_cons_of_mem _ hx)
    simp only [path.extScan]
    split
    · rfl
    · rw [if_neg (by simpa using hc)]
      exact ih _ hrest

/-- Claim C7. For every wrapped `FileInfo` (one whose `Name()` returns), `ContentType` returns
with a nil error, and its result is determined by the name alone: the type the table has for
the name's extension when that is non-empty, and `application/octet-stream` otherwise; any
other wrapped value of the same name gets the same answer; a name without a dot has the empty
extension, for which the answer is the fallback whenever the table has no type for the empty
extension. -/
theorem ContentType_from_extension (TypeByExtension : String → String) (w : FileInfo)
    (name : String) (hname : w.Name = some name) :
    noSniffFileInfo.ContentType TypeByExtension w =
        Outcome.ret
          ((if TypeByExtension (path.Ext name) = "" then "application/octet-stream"
            else TypeByExtension (path.Ext name)), none) ∧
      (∀ w2 : FileInfo, w2.Name = some name →
        noSniffFileInfo.ContentType TypeByExtension w2
          = noSniffFileInfo.ContentType TypeByExtension w) ∧
      ((∀ c ∈ name.data, c ≠ '.') → path.Ext name = "") ∧
      ((∀ c ∈ name.data, c ≠ '.') → TypeByExtension "" = "" →
        noSniffFileInfo.ContentType TypeByExtension w
          = Outcome.ret ("application/octet-stream", none)) := by
  have hval : ∀ v : FileInfo, v.Name = some name →
      noSniffFileInfo.ContentType TypeByExtension v =
        Outcome.ret
          ((if TypeByExtension (path.Ext name) = "" then "application/octet-stream"
            else TypeByExtension (path.Ext name)), none) := by
    intro v hv
    simp only [noSniffFileInfo.ContentType, hv]
    by_cases ht : TypeByExtension (path.Ext name) = ""
    · simp [ht]
    · simp [ht]
  have hext : (∀ c ∈ name.data, c ≠ '.') → path.Ext name = "" := by
    intro hl
    simp only [path.Ext]
    rw [extScan_no_dot _ _ (fun c hc => hl c (List.mem_reverse.1 hc))]
  refine ⟨hval w hname, fun w2 h2 => by rw [hval w2 h2, hval w hname], hext, ?_⟩
  intro hl ht
  rw [hval w hname, hext hl, ht]
  rfl

/-- Witness for C7: with a table that knows `.docx` only, `report.docx` gets the registered
type and `data.xyz123` the fallback. -/
theorem ContentType_from_extension_witness :
    noSniffFileInfo.ContentType docxTable (infoNamed "report.docx") =
        Outcome.ret
          ("application/vnd.openxmlformats-officedocument.wordprocessingml.document", none) ∧
      noSniffFileInfo.ContentType docxTable (infoNamed "data.xyz123") =
        Outcome.ret ("application/octet-stream", none) ∧
      noSniffFileInfo.ContentType docxTable (infoNamed "README") =
        Outcome.ret ("application/octet-stream", none) :=
  ⟨(ContentType_from_extension docxTable (infoNamed "report.docx") "report.docx" rfl).1,
    (ContentType_from_extension docxTable (infoNamed "data.xyz123") "data.xyz123" rfl).1,
    (ContentType_from_extension docxTable (infoNamed "README") "README" rfl).2.2.2
      (by decide) (by decide)⟩

/-- Claim C8. `Dir.Stat` makes one call of the underlying `Dir.Stat`. With `noSniff` false it
returns that call's `(FileInfo, error)` pair as it is, so a content-type query on the result
sees what the underlying file system reports. With `noSniff` true it returns `(nil, err)`
when the underlying call failed and otherwise the underlying `FileInfo` wrapped in a
`noSniffFileInfo`, whose `Name`, `Size`, `Mode`, `ModTime` and `IsDir` are those of the
value it wraps. -/
theorem Dir_Stat_switch {σ : Type} (h : Host σ) (d : Dir) (name : String) (w : World σ) :
    newEvents w (Dir.Stat h d name w) = [Event.DirStat d.Dir name] ∧
      (d.noSniff = false →
        (Dir.Stat h d name w).1 = Outcome.ret (h.DirStat d.Dir name w.host).1) ∧
      (d.noSniff = false → ∀ tbl,
        (h.DirStat d.Dir name w.host).1.1.ContentType tbl =
          match (Dir.Stat h d name w).1 with
          | Outcome.ret r => r.1.ContentType tbl
          | Outcome.panic _ => none) ∧
      (d.noSniff = true → (h.DirStat d.Dir name w.host).1.2 ≠ none →
        (Dir.Stat h d name w).1
          = Outcome.ret (FileInfo.nil, (h.DirStat d.Dir name w.host).1.2)) ∧
      (d.noSniff = true → (h.DirStat d.Dir name w.host).1.2 = none →
        (Dir.Stat h d name w).1
          = Outcome.ret (FileInfo.noSniffFileInfo (h.DirStat d.Dir name w.host).1.1, none)) ∧
      (∀ i : FileInfo,
        (FileInfo.noSniffFileInfo i).Name = i.Name ∧
        (FileInfo.noSniffFileInfo i).Size = i.Size ∧
        (FileInfo.noSniffFileInfo i).Mode = i.Mode ∧
        (FileInfo.noSniffFileInfo i).ModTime = i.ModTime ∧
        (FileInfo.noSniffFileInfo i).IsDir = i.IsDir) := by
  have hrun : Dir.Stat h d name w =
      (Outcome.ret
        (if d.noSniff then
          (if (h.DirStat d.Dir name w.host).1.2.isSome then
            (FileInfo.nil, (h.DirStat d.Dir name w.host).1.2)
          else (FileInfo.noSniffFileInfo (h.DirStat d.Dir name w.host).1.1, none))
        else (h.DirStat d.Dir name w.host).1),
        { host := (h.DirStat d.Dir name w.host).2,
          trace := w.trace ++ [Event.DirStat d.Dir name] }) := by
    simp only [Dir.Stat, bind, Run.bind, call, pure, Run.pure]
    cases d.noSniff
    · simp [Run.bind, Run.pure, call]
    · cases he : (h.DirStat d.Dir name w.host).1.2.isSome <;>
        simp [Run.bind, Run.pure, call, he]
  refine ⟨?_, ?_, ?_, ?_, ?_, fun i => ⟨rfl, rfl, rfl, rfl, rfl⟩⟩
  · rw [hrun]; simp [newEvents, eventsSince]
  · intro hs; rw [hrun, hs]; rfl
  · intro hs tbl; rw [hrun, hs]; rfl
  · intro hs he
    rw [hrun, hs]
    have : (h.DirStat d.Dir name w.host).1.2.isSome = true := by
      cases hx : (h.DirStat d.Dir name w.host).1.2
      · exact absurd hx he
      · rfl
    simp [this]
  · intro hs he
    rw [hrun, hs]
    simp [he]

/-- Claim C10. Handle metadata wrapping. `Stat` and `Readdir` of a `noSniffFile` each make the
one delegated call and nothing else; they return `(nil, err)` when that call returns an
error; otherwise `Stat` returns the delegated `FileInfo` wrapped in a `noSniffFileInfo`, and
`Readdir` a slice of the same length as the delegated one whose element `i` is the delegated
element `i` wrapped, for every index. The handle is passed by value and neither function
produces a handle, so `fullPath`, `hasOrigTime`, the captured triple and `flag` stay as they
are. -/
theorem handle_metadata_wrapping {σ : Type} (h : Host σ) (f : noSniffFile) (count : Int)
    (w : World σ) :
    noSniffFile.Stat h f w =
        (Outcome.ret
          (if (h.FileStat f.File w.host).1.2.isSome then
            (FileInfo.nil, (h.FileStat f.File w.host).1.2)
          else (FileInfo.noSniffFileInfo (h.FileStat f.File w.host).1.1, none)),
          { host := (h.FileStat f.File w.host).2,
            trace := w.trace ++ [Event.FileStat f.File] }) ∧
      (noSniffFile.Readdir h f count w).2 =
        { host := (h.FileReaddir f.File count w.host).2,
          trace := w.trace ++ [Event.FileReaddir f.File count] } ∧
      ((h.FileReaddir f.File count w.host).1.2 ≠ none →
        (noSniffFile.Readdir h f count w).1
          = Outcome.ret ([], (h.FileReaddir f.File count w.host).1.2)) ∧
      ((h.FileReaddir f.File count w.host).1.2 = none →
        ∃ out, (noSniffFile.Readdir h f count w).1 = Outcome.ret (out, none) ∧
          out.length = (h.FileReaddir f.File count w.host).1.1.length ∧
          ∀ i, i < (h.FileReaddir f.File count w.host).1.1.length →
            out[i]? = ((h.FileReaddir f.File count w.host).1.1[i]?).map
              FileInfo.noSniffFileInfo) := by
  have hread : noSniffFile.Readdir h f count w =
      (Outcome.ret
        (if (h.FileReaddir f.File count w.host).1.2.isSome then
          ([], (h.FileReaddir f.File count w.host).1.2)
        else ((h.FileReaddir f.File count w.host).1.1.map FileInfo.noSniffFileInfo, none)),
        { host := (h.FileReaddir f.File count w.host).2,
          trace := w.trace ++ [Event.FileReaddir f.File count] }) := by
    simp only [noSniffFile.Readdir, bind, Run.bind, call, pure, Run.pure]
    cases he : (h.FileReaddir f.File count w.host).1.2.isSome <;>
      simp [Run.bind, Run.pure, call, he]
  refine ⟨?_, ?_, ?_, ?_⟩
  · simp only [noSniffFile.Stat, bind, Run.bind, call, pure, Run.pure]
    cases he : (h.FileStat f.File w.host).1.2.isSome <;>
      simp [Run.bind, Run.pure, call, he]
  · rw [hread]
  · intro he
    rw [hread]
    have : (h.FileReaddir f.File count w.host).1.2.isSome = true := by
      cases hx : (h.FileReaddir f.File count w.host).1.2
      · exact absurd hx he
      · rfl
    simp [this]
  · intro he
    refine ⟨(h.FileReaddir f.File count w.host).1.1.map FileInfo.noSniffFileInfo, ?_, ?_, ?_⟩
    · rw [hread]; simp [he]
    · simp
    · intro i _
      simp

end WebDAVT
